import Mathlib

/-!
# Verification of the AI-guardrail moderation core

A shallow embedding, in Lean 4, of the moderation pipeline of the
`ai-guardrail-azure-mvp` repository:

* `limit_docs_with_metadata` (ContextBudgeter) from `src/core/rag_core.py`,
* `check_guardrail` (Classifier) from `src/core/rag_core.py`,
* `stream_and_filter_response` (StreamFilter) from `src/utils/streaming_utils.py`,
* `format_source_documents` (CitationMatcher) from `src/web/app.py`.

Python strings are modelled as `List Char`, Python floats as `ℚ`,
Python `dict`-based records as structures, and exceptions as `Except`
values.  External collaborators (Azure retrieval, the LLM client,
`difflib.SequenceMatcher`, `base64`/`urllib` decoding and wall-clock
readings) are parameters of the embedded functions, so every theorem
quantifies over their behaviour.
-/

namespace Guardrail

/-- A retrieved document (`langchain` `Document`) as the core uses it:
its text content and the two metadata keys the code reads
(`metadata.get` returns `None` when a key is absent, hence `Option`). -/
structure Doc where
  page_content : List Char
  metadata_storage_path : Option (List Char)
  metadata_storage_name : Option (List Char)
deriving DecidableEq, Repr

/-- Python `str.strip()`: remove leading and trailing whitespace. -/
def pyStrip (s : List Char) : List Char :=
  ((s.dropWhile Char.isWhitespace).reverse.dropWhile Char.isWhitespace).reverse

/-- `max(1, len(doc.page_content) // 3)` from `limit_docs_with_metadata`
(`rag_core.py` line 161): the approximate token count of one document. -/
def docTokens (d : Doc) : Int :=
  max 1 ((d.page_content.length : Int) / 3)

/-- The document walk of `limit_docs_with_metadata` (`rag_core.py`
lines 158-169): accumulate whole documents while they fit in the token
budget; on the first document that does not fit, include a partial slice
of the remaining budget (only when that slice exceeds 100 characters,
with a trailing ellipsis) and halt. -/
def limitLoop (maxT : Int) : List Doc → Int → List Char → List Char
  | [], _, acc => acc
  | d :: ds, cur, acc =>
    if cur + docTokens d > maxT then
      let remChars : Int := max 0 ((maxT - cur) * 3)
      if remChars > 100 then
        acc ++ ('\n' :: '\n' :: d.page_content.take remChars.toNat) ++ ['.', '.', '.']
      else acc
    else limitLoop maxT ds (cur + docTokens d) (acc ++ '\n' :: '\n' :: d.page_content)

/-- Result of `limit_docs_with_metadata`: the dictionary
`{"documents": ..., "combined_text": ...}`. -/
structure LimitResult where
  documents : List Doc
  combined_text : List Char
deriving DecidableEq, Repr

/-- `limit_docs_with_metadata(docs, max_tokens=...)` from `rag_core.py`
lines 138-171.  The `max_tokens=None → CONFIG` defaulting is resolved by
the caller supplying the effective budget. -/
def limit_docs_with_metadata (docs : List Doc) (max_tokens : Int) : LimitResult :=
  if docs.isEmpty then ⟨[], []⟩
  else ⟨docs, pyStrip (limitLoop max_tokens docs 0 [])⟩

/-- Sum of approximate token counts of a document list. -/
def sumTokens (docs : List Doc) : Int :=
  (docs.map docTokens).sum

/-- The `"\n\n" + doc.page_content` segments of the fully included
documents, concatenated. -/
def fullText (docs : List Doc) : List Char :=
  (docs.map (fun d => '\n' :: '\n' :: d.page_content)).flatten

/-- The partial-inclusion tail of the budget walk: looking at the first
document that did not fit (head of `rest`), with `remT` tokens of budget
left, the walk appends a `remT * 3`-character slice (plus separator and
ellipsis) exactly when that slice exceeds 100 characters. -/
def budgetTail (rest : List Doc) (remT : Int) : List Char :=
  match rest with
  | [] => []
  | d :: _ =>
    let remChars : Int := max 0 (remT * 3)
    if remChars > 100 then
      ('\n' :: '\n' :: d.page_content.take remChars.toNat) ++ ['.', '.', '.']
    else []

/-- Python exceptions as `check_guardrail`'s two `except` clauses
distinguish them: a `json.JSONDecodeError` or any other `Exception`
(carrying `str(e)`). -/
inductive PyExn where
  | jsonDecode (msg : List Char)
  | other (msg : List Char)
deriving DecidableEq, Repr

/-- The JSON object parsed from the LLM answer, restricted to the three
keys the code reads; each may be absent from the object. -/
structure ParsedObj where
  decision : Option (List Char)
  reason : Option (List Char)
  source_files : Option (List (List Char))
deriving DecidableEq, Repr

/-- The dictionary returned by `check_guardrail`.  `decision`, `reason`
and `source_files` are `Option` because on the success path they are
taken verbatim from the parsed JSON (which may lack any of them) and on
the failure paths the `source_files` key is never set; `elapsed_time`
and `source_documents` are set by `check_guardrail` on every path. -/
structure PyVerdict where
  decision : Option (List Char)
  reason : Option (List Char)
  source_files : Option (List (List Char))
  elapsed_time : ℚ
  source_documents : List Doc
deriving DecidableEq, Repr

/-- The literal `"ERROR"` decision string. -/
def sERROR : List Char := "ERROR".toList

/-- The literal reason on the JSON-decode failure path. -/
def parseFailReason : List Char := "Failed to parse LLM response as JSON.".toList

/-- The reason on the generic exception path:
`f"An unexpected error occurred: {e}"`. -/
def unexpectedReason (m : List Char) : List Char :=
  "An unexpected error occurred: ".toList ++ m

/-- The ERROR verdict built by the `except json.JSONDecodeError` clause
(`rag_core.py` lines 216-223). -/
def errVerdictJson (tStart tEnd : ℚ) : PyVerdict :=
  ⟨some sERROR, some parseFailReason, none, tEnd - tStart, []⟩

/-- The ERROR verdict built by the `except Exception as e` clause
(`rag_core.py` lines 224-231). -/
def errVerdictOther (m : List Char) (tStart tEnd : ℚ) : PyVerdict :=
  ⟨some sERROR, some (unexpectedReason m), none, tEnd - tStart, []⟩

/-- Steps (5) of `check_guardrail`: parse the LLM answer as JSON and
assemble the verdict (`rag_core.py` lines 201-214); a parse failure is
consumed by the `JSONDecodeError` handler. -/
def guardrailParse (parseJSON : List Char → Option ParsedObj)
    (tStart tEnd : ℚ) (docs : List Doc) (max_tokens : Int)
    (answer : List Char) : PyVerdict :=
  match parseJSON answer with
  | none => errVerdictJson tStart tEnd
  | some obj =>
    ⟨obj.decision, obj.reason, obj.source_files, tEnd - tStart,
      (limit_docs_with_metadata docs max_tokens).documents⟩

/-- Steps (2)-(4) of `check_guardrail`: budget the retrieved documents
and run the LLM chain (`rag_core.py` lines 191-200); an exception from
the chain is consumed by the matching handler. -/
def guardrailInvoke (invokeChain : List Char → List Char → Except PyExn (List Char))
    (parseJSON : List Char → Option ParsedObj)
    (tStart tEnd : ℚ) (max_tokens : Int) (text : List Char)
    (docs : List Doc) : PyVerdict :=
  match invokeChain (limit_docs_with_metadata docs max_tokens).combined_text text with
  | Except.error (PyExn.jsonDecode _) => errVerdictJson tStart tEnd
  | Except.error (PyExn.other m) => errVerdictOther m tStart tEnd
  | Except.ok answer => guardrailParse parseJSON tStart tEnd docs max_tokens answer

/-- `check_guardrail` (`rag_core.py` lines 175-231).  The external
collaborators are parameters: `retrieve` models `retriever.invoke`,
`invokeChain` models `(prompt | llm | output_parser).invoke` applied to
the budgeted context and the question, and `parseJSON` models
`json.loads` (with `none` standing for a `JSONDecodeError`); each may
raise an exception, modelled as `Except.error`.  `tStart`/`tEnd` are the
two `time.time()` readings.  The whole body sits inside `try`, and both
`except` clauses return a verdict, so the embedding is a total function
into `PyVerdict`: no exception can escape to the caller. -/
def check_guardrail
    (retrieve : List Char → Except PyExn (List Doc))
    (invokeChain : List Char → List Char → Except PyExn (List Char))
    (parseJSON : List Char → Option ParsedObj)
    (max_tokens : Int) (tStart tEnd : ℚ)
    (text : List Char) : PyVerdict :=
  match retrieve text with
  | Except.error (PyExn.jsonDecode _) => errVerdictJson tStart tEnd
  | Except.error (PyExn.other m) => errVerdictOther m tStart tEnd
  | Except.ok docs =>
    guardrailInvoke invokeChain parseJSON tStart tEnd max_tokens text docs

/-- A verdict that reports a recovered failure: decision `"ERROR"` with
a non-empty human-readable reason. -/
def isErrorVerdict (v : PyVerdict) : Prop :=
  v.decision = some sERROR ∧ ∃ r, v.reason = some r ∧ 0 < r.length

/-- Classifier decisions.  `stream_and_filter_response` compares the
decision string only against `"HARMFUL"`; the three non-harmful
decisions (and any other string the LLM might emit) all take the same
branch. -/
inductive Decision where
  | SAFE
  | HARMFUL
  | CANNOT_DETERMINE
  | ERROR
deriving DecidableEq, Repr

/-- The guardrail result as the streaming filter consumes it: the code
reads every field through `.get` with a default (`streaming_utils.py`
lines 38-47), so all fields are total here; `reason` already carries the
`"No reason provided."` default when the key was absent. -/
structure GuardResult where
  decision : Decision
  reason : List Char
  elapsed_time : ℚ
  source_documents : List Doc
  source_files : List (List Char)
deriving DecidableEq, Repr

/-- The diagnostics accumulator of one stream run: `total_elapsed_time`,
`all_source_documents` and `all_source_files` (`streaming_utils.py`
lines 22-24).  The Python `set` of file names is modelled as an
insertion-ordered duplicate-free list. -/
structure DiagAcc where
  elapsed_time : ℚ
  source_documents : List Doc
  source_files : List (List Char)
deriving DecidableEq, Repr

/-- Adding one element to the modelled `set`. -/
def pySetAdd (s : List (List Char)) (x : List Char) : List (List Char) :=
  if x ∈ s then s else s ++ [x]

/-- `all_source_files.update(source_files)`. -/
def pySetUpdate (s : List (List Char)) (xs : List (List Char)) : List (List Char) :=
  xs.foldl pySetAdd s

/-- Merging one classifier result into the accumulator
(`streaming_utils.py` lines 38-44 and 65-71). -/
def mergeDiag (d : DiagAcc) (g : GuardResult) : DiagAcc :=
  ⟨d.elapsed_time + g.elapsed_time,
   d.source_documents ++ g.source_documents,
   pySetUpdate d.source_files g.source_files⟩

/-- The accumulator after classifying a sequence of windows. -/
def foldDiag (cg : List Char → GuardResult) (d : DiagAcc)
    (ws : List (List Char)) : DiagAcc :=
  ws.foldl (fun acc w => mergeDiag acc (cg w)) d

/-- Zeroed accumulator at stream start. -/
def zeroDiag : DiagAcc := ⟨0, [], []⟩

/-- The events yielded by `stream_and_filter_response`. -/
inductive Event where
  | SAFE_CHUNK (text : List Char)
  | BLOCKED (message : List Char)
  | ERROR (message : List Char)
  | DIAGNOSTICS (diag : DiagAcc)
deriving DecidableEq, Repr

/-- The BLOCKED payload (`streaming_utils.py` lines 48 and 75). -/
def blockedMessage (reason : List Char) : List Char :=
  "⚠️ **콘텐츠가 내부 정책에 위배되어 차단되었습니다.**\n\n**사유:** ".toList ++ reason

/-- The ERROR payload (`streaming_utils.py` line 93). -/
def streamErrorMessage (m : List Char) : List Char :=
  "❌ **스트리밍 중 오류가 발생했습니다:** ".toList ++ m

/-- The mutable state of one run between fragments: `buffer`,
`is_first_chunk` and the diagnostics accumulator. -/
structure FlushState where
  buffer : List Char
  is_first_chunk : Bool
  diag : DiagAcc
deriving DecidableEq, Repr

/-- Outcome of a processing phase: the events yielded and the windows
passed to the classifier during the phase, plus either termination after
a HARMFUL verdict or the state carried forward. -/
inductive StepOut where
  | blocked (events : List Event) (windows : List (List Char))
  | cont (events : List Event) (windows : List (List Char)) (st : FlushState)
deriving DecidableEq, Repr

/-- The inner `while len(buffer) >= current_buffer_size` loop
(`streaming_utils.py` lines 31-60): carve `size`-character windows off
the buffer head, classify each, merge diagnostics, terminate with
BLOCKED and DIAGNOSTICS on a HARMFUL verdict, otherwise yield the window
as SAFE_CHUNK and clear `is_first_chunk`.  `size` is fixed for the whole
loop, exactly as `current_buffer_size` is computed once per incoming
fragment in the source.  The `fuel` argument (instantiated with the
buffer length, which bounds the number of iterations as each one removes
at least one character) makes the recursion structural; the `0 < size`
guard makes the model total where the Python loop would not terminate
(buffer size 0), and every claim assumes positive thresholds (the
spec's BufferPolicy). -/
def flushLoop (cg : List Char → GuardResult) (size : Nat) :
    Nat → List Char → Bool → DiagAcc → StepOut
  | 0, buffer, first, diag => StepOut.cont [] [] ⟨buffer, first, diag⟩
  | fuel + 1, buffer, first, diag =>
    if 0 < size ∧ size ≤ buffer.length then
      let w := buffer.take size
      let g := cg w
      let d2 := mergeDiag diag g
      if g.decision = Decision.HARMFUL then
        StepOut.blocked [Event.BLOCKED (blockedMessage g.reason),
          Event.DIAGNOSTICS d2] [w]
      else
        match flushLoop cg size fuel (buffer.drop size) false d2 with
        | StepOut.blocked evs ws =>
          StepOut.blocked (Event.SAFE_CHUNK w :: evs) (w :: ws)
        | StepOut.cont evs ws st =>
          StepOut.cont (Event.SAFE_CHUNK w :: evs) (w :: ws) st
    else StepOut.cont [] [] ⟨buffer, first, diag⟩

/-- The outer `for chunk in llm_stream` loop (`streaming_utils.py`
lines 27-60): append each fragment to the buffer, fix the threshold for
this fragment from `is_first_chunk`, and run the inner loop. -/
def runFrags (cg : List Char → GuardResult) (init subseq : Nat) :
    List (List Char) → FlushState → StepOut
  | [], st => StepOut.cont [] [] st
  | f :: fs, st =>
    let size := if st.is_first_chunk then init else subseq
    match flushLoop cg size (st.buffer ++ f).length (st.buffer ++ f)
        st.is_first_chunk st.diag with
    | StepOut.blocked evs ws => StepOut.blocked evs ws
    | StepOut.cont evs ws st2 =>
      match runFrags cg init subseq fs st2 with
      | StepOut.blocked evs2 ws2 => StepOut.blocked (evs ++ evs2) (ws ++ ws2)
      | StepOut.cont evs2 ws2 st3 => StepOut.cont (evs ++ evs2) (ws ++ ws2) st3

/-- A lazy upstream LLM stream: the fragment texts it yields
successfully (`chunk.content`), and — if iterating it then raises —
the exception message.  `err = none` models normal exhaustion.
Fragments after the raise point are unreachable and need no modelling;
likewise nothing after an early `return` is ever pulled. -/
structure StreamInput where
  fragments : List (List Char)
  err : Option (List Char)
deriving DecidableEq, Repr

/-- The whole generator `stream_and_filter_response`
(`streaming_utils.py` lines 16-99), instrumented to also return the list
of windows passed to `check_guardrail` (the classifier trace): process
all fragments; then on an upstream exception yield ERROR and
DIAGNOSTICS; otherwise classify the non-empty remainder buffer as one
final window with the same HARMFUL logic and finish with DIAGNOSTICS. -/
def streamFilterRun (cg : List Char → GuardResult) (init subseq : Nat)
    (s : StreamInput) : List Event × List (List Char) :=
  match runFrags cg init subseq s.fragments ⟨[], true, zeroDiag⟩ with
  | StepOut.blocked evs ws => (evs, ws)
  | StepOut.cont evs ws st =>
    match s.err with
    | some m =>
      (evs ++ [Event.ERROR (streamErrorMessage m), Event.DIAGNOSTICS st.diag], ws)
    | none =>
      if st.buffer.isEmpty then (evs ++ [Event.DIAGNOSTICS st.diag], ws)
      else
        let g := cg st.buffer
        let d2 := mergeDiag st.diag g
        if g.decision = Decision.HARMFUL then
          (evs ++ [Event.BLOCKED (blockedMessage g.reason),
            Event.DIAGNOSTICS d2], ws ++ [st.buffer])
        else
          (evs ++ [Event.SAFE_CHUNK st.buffer, Event.DIAGNOSTICS d2],
            ws ++ [st.buffer])

/-- The event sequence of one run (what the Python generator yields). -/
def stream_and_filter_response (cg : List Char → GuardResult)
    (init subseq : Nat) (s : StreamInput) : List Event :=
  (streamFilterRun cg init subseq s).1

/-- The classifier trace of one run: every window passed to
`check_guardrail`, in call order. -/
def streamWindows (cg : List Char → GuardResult) (init subseq : Nat)
    (s : StreamInput) : List (List Char) :=
  (streamFilterRun cg init subseq s).2

/-- The SAFE_CHUNK payloads of an event list, in order. -/
def safeTexts : List Event → List (List Char)
  | [] => []
  | Event.SAFE_CHUNK t :: es => t :: safeTexts es
  | _ :: es => safeTexts es

/-- Whether an event list contains a BLOCKED event. -/
def hasBlocked (evs : List Event) : Bool :=
  evs.any fun e =>
    match e with
    | Event.BLOCKED _ => true
    | _ => false

/-- One assignment `m[k] = v` of a Python dict comprehension: an
existing key keeps its position but takes the new value; a new key is
appended. -/
def dictInsert (m : List (Option (List Char) × Doc)) (k : Option (List Char))
    (v : Doc) : List (Option (List Char) × Doc) :=
  if k ∈ m.map Prod.fst then
    m.map (fun p => if p.1 = k then (k, v) else p)
  else m ++ [(k, v)]

/-- `{doc.metadata.get("metadata_storage_path"): doc for doc in documents}.values()`
(`app.py` lines 32 and 143): deduplication by the exact storage-path
value — the shared missing value `None` for every document lacking the
key — with the last occurrence winning and first-occurrence key order. -/
def unique_documents (documents : List Doc) : List Doc :=
  (documents.foldl (fun m d => dictInsert m d.metadata_storage_path d) []).map
    Prod.snd

/-- Index of the last occurrence of a character, like Python `rfind`
(but `none` instead of `-1` when absent). -/
def lastIdxOf (c : Char) (s : List Char) : Option Nat :=
  ((s.enum.filter (fun p => p.2 = c)).map Prod.fst).getLast?

/-- `os.path.splitext(s)[0]` for POSIX paths: cut at the last dot,
provided it comes after the last slash and the basename has a non-dot
character before it (leading dots do not start an extension). -/
def splitextFst (s : List Char) : List Char :=
  match lastIdxOf '.' s with
  | none => s
  | some dot =>
    let start : Nat :=
      match lastIdxOf '/' s with
      | none => 0
      | some sep => sep + 1
    if start ≤ dot ∧ ((s.drop start).take (dot - start)).any (fun ch => ch ≠ '.')
    then s.take dot else s

/-- `re.sub(r'\([^)]*\)', '', s)`: drop every parenthesis group that
has a closing parenthesis (the group runs to the first one); an
unmatched opening parenthesis stays.  `fuel` (instantiated with the
string length, which bounds the number of steps) keeps the recursion
structural. -/
def stripParensF : Nat → List Char → List Char
  | 0, s => s
  | _ + 1, [] => []
  | fuel + 1, c :: rest =>
    if c = '(' ∧ rest.any (fun ch => ch = ')') then
      stripParensF fuel ((rest.dropWhile (fun ch => ch ≠ ')')).drop 1)
    else c :: stripParensF fuel rest

/-- `re.sub(r'\([^)]*\)', '', s)`. -/
def stripParens (s : List Char) : List Char :=
  stripParensF s.length s

/-- `re.sub(r'\s+', ' ', s)`: collapse every whitespace run to one
space.  `fuel` as in `stripParensF`. -/
def collapseWsF : Nat → List Char → List Char
  | 0, s => s
  | _ + 1, [] => []
  | fuel + 1, c :: rest =>
    if c.isWhitespace then ' ' :: collapseWsF fuel (rest.dropWhile Char.isWhitespace)
    else c :: collapseWsF fuel rest

/-- `re.sub(r'\s+', ' ', s)`. -/
def collapseWs (s : List Char) : List Char :=
  collapseWsF s.length s

/-- `s.lower()` restricted to ASCII case mapping (the characters the
normalizer keeps are ASCII and Hangul, and Hangul has no case). -/
def pyLower (s : List Char) : List Char :=
  s.map Char.toLower

/-- `re.sub(r'[^0-9a-zA-Z가-힣 ]', '', s)`. -/
def keepAlnumHangul (s : List Char) : List Char :=
  s.filter (fun c => decide (('0' ≤ c ∧ c ≤ '9') ∨ ('a' ≤ c ∧ c ≤ 'z') ∨
    ('A' ≤ c ∧ c ≤ 'Z') ∨ ('가' ≤ c ∧ c ≤ '힣') ∨ c = ' '))

/-- `normalize_filename` (`app.py` lines 84-90): strip parenthesis
groups, strip the extension, collapse whitespace, strip, lowercase,
drop everything but digits, Latin letters, Hangul and spaces. -/
def normalize_filename (s : List Char) : List Char :=
  keepAlnumHangul (pyLower (pyStrip (collapseWs (splitextFst (stripParens s)))))

/-- `s.split()`: whitespace-separated tokens, no empties. -/
def wsTokens (s : List Char) : List (List Char) :=
  (s.foldr (fun c acc =>
    if c.isWhitespace then [] :: acc
    else
      match acc with
      | [] => [[c]]
      | t :: ts => (c :: t) :: ts) ([] : List (List (Char)))).filter
    (fun t => !t.isEmpty)

/-- `set(s.split())`, as an insertion-ordered duplicate-free list. -/
def tokenSet (s : List Char) : List (List Char) :=
  (wsTokens s).eraseDups

/-- `len(sa & sb)`: the raw token-overlap count of `app.py` line 112. -/
def tokenOverlap (a b : List Char) : Nat :=
  ((tokenSet a).filter (fun t => decide (t ∈ tokenSet b))).length

/-- `token_jaccard` (`app.py` lines 97-101):
`len(sa & sb) / max(1, len(sa | sb))`, `0.0` when either set is empty. -/
def token_jaccard (a b : List Char) : ℚ :=
  let sa := tokenSet a
  let sb := tokenSet b
  if sa.isEmpty ∨ sb.isEmpty then 0
  else mkRat (tokenOverlap a b)
    (max 1 (sa.length + (sb.filter (fun t => decide (t ∉ sa))).length))

/-- The per-document acceptance test of the citation filter (`app.py`
lines 81-117): against some cited string, the maximum of the
character-sequence similarity (`difflib.SequenceMatcher.ratio`,
abstracted as `seqSim`) and the token Jaccard index of the normalized
names reaches 0.35, or at least one normalized token is shared.  The
candidate name goes through `splitext` once more before normalization
(line 81). -/
def isCited (seqSim : List Char → List Char → ℚ)
    (source_files_filter : List (List Char)) (file_name : List Char) : Bool :=
  let nf := normalize_filename (splitextFst file_name)
  source_files_filter.any (fun cited =>
    let nc := normalize_filename cited
    decide (mkRat 7 20 ≤ max (seqSim nf nc) (token_jaccard nf nc)) ||
      decide (1 ≤ tokenOverlap nf nc))

/-- `path_key.replace('-', '+').replace('_', '/')`. -/
def urlsafeFix (s : List Char) : List Char :=
  s.map (fun c => if c = '-' then '+' else if c = '_' then '/' else c)

/-- `path_key_std + '=' * (-len(path_key_std) % 4)` (and the `ljust`
variant on line 147, which pads to the same next multiple of four). -/
def padB64 (s : List Char) : List Char :=
  s ++ List.replicate ((4 - s.length % 4) % 4) '='

/-- `path_key.startswith(('http://', 'https://'))`. -/
def hasHttpScheme (s : List Char) : Bool :=
  decide (s.take 7 = "http://".toList) || decide (s.take 8 = "https://".toList)

/-- `f"{raw_path_for_debug} (파싱 실패)"`. -/
def parseFailName (raw : List Char) : List Char :=
  raw ++ " (파싱 실패)".toList

/-- `"메타데이터 없음"`. -/
def noMetaName : List Char :=
  "메타데이터 없음".toList

/-- `"출처 불명"`. -/
def srcUnknownName : List Char :=
  "출처 불명".toList

/-- The display-name resolution of the main loop (`app.py` lines
38-73): prefer a truthy `metadata_storage_name`; otherwise decode the
storage path (base64 with the URL-safe alphabet restored and padding
added, unless it is already an http(s) URL) and take the URL path's
final segment; any failure is caught and named
`"{path} (파싱 실패)"`, or `"메타데이터 없음"` when the path itself is
missing or empty.  `b64` abstracts
`base64.b64decode(·).decode('utf-8')` (`none` = exception) and
`urlName` abstracts
`os.path.basename(urllib.parse.unquote(urlparse(·).path))`. -/
def resolveName (b64 : List Char → Option (List Char))
    (urlName : List Char → List Char) (d : Doc) : List Char :=
  let path_key := d.metadata_storage_path.getD []
  let fallbackPath : List Char :=
    if path_key.isEmpty then noMetaName
    else
      let decoded : Option (List Char) :=
        if hasHttpScheme path_key then some path_key
        else b64 (padB64 (urlsafeFix path_key))
      match decoded with
      | none => parseFailName path_key
      | some dp =>
        let parsed := urlName dp
        if parsed.isEmpty then parseFailName path_key else parsed
  match d.metadata_storage_name with
  | some n => if n.isEmpty then fallbackPath else n
  | none => fallbackPath

/-- `full_content = doc.page_content.replace(chr(10), ' ').strip()`. -/
def pyContentClean (content : List Char) : List Char :=
  pyStrip (content.map (fun c => if c = '\n' then ' ' else c))

/-- `full_content[:250] + "..." if len(full_content) > 250 else ...`. -/
def mkPreview (full : List Char) : List Char :=
  if 250 < full.length then full.take 250 ++ ['.', '.', '.'] else full

/-- One formatted entry:
`{"file_name": ..., "preview": ..., "full_content": ...}`. -/
structure DisplayDoc where
  file_name : List Char
  preview : List Char
  full_content : List Char
deriving DecidableEq, Repr

/-- Build one formatted entry from a resolved name and a document. -/
def mkRecord (name : List Char) (d : Doc) : DisplayDoc :=
  ⟨name, mkPreview (pyContentClean d.page_content), pyContentClean d.page_content⟩

/-- The display-name expression of the fail-open fallback loop
(`app.py` lines 144-152).  Unlike the main loop it is NOT wrapped in
`try/except`: when the storage path is truthy, not an http(s) URL, and
the document has no truthy storage name, a `b64decode`/UTF-8 failure
raises out of `format_source_documents`; that is the `Except.error`
case (carrying the offending path). -/
def fallbackDisplayName (b64 : List Char → Option (List Char))
    (urlName : List Char → List Char) (d : Doc) :
    Except (List Char) (List Char) :=
  let path_key := d.metadata_storage_path.getD []
  if !path_key.isEmpty && !hasHttpScheme path_key then
    match d.metadata_storage_name with
    | some n =>
      if n.isEmpty then
        match b64 (padB64 (urlsafeFix path_key)) with
        | none => Except.error path_key
        | some dp => Except.ok (urlName dp)
      else Except.ok n
    | none =>
      match b64 (padB64 (urlsafeFix path_key)) with
      | none => Except.error path_key
      | some dp => Except.ok (urlName dp)
  else
    match d.metadata_storage_name with
    | some n => if n.isEmpty then Except.ok (urlName path_key) else Except.ok n
    | none => Except.ok (urlName path_key)

/-- The fail-open fallback loop (`app.py` lines 142-159): re-derive the
deduplicated documents' display names (the first exception propagates)
and format them all. -/
def fallbackRecords (b64 : List Char → Option (List Char))
    (urlName : List Char → List Char) :
    List Doc → Except (List Char) (List DisplayDoc)
  | [] => Except.ok []
  | d :: ds =>
    match fallbackDisplayName b64 urlName d with
    | Except.error e => Except.error e
    | Except.ok n =>
      match fallbackRecords b64 urlName ds with
      | Except.error e => Except.error e
      | Except.ok l =>
        Except.ok (mkRecord (if n.isEmpty then srcUnknownName else n) d :: l)

/-- `format_source_documents` (`app.py` lines 18-161).  An empty or
`None` filter disables filtering (Python truthiness of
`source_files_filter`); with a non-empty filter, documents whose
resolved names fail `isCited` are skipped, and when nothing matched the
fail-open fallback re-formats the whole deduplicated list (possibly
raising, hence `Except`). -/
def format_source_documents (seqSim : List Char → List Char → ℚ)
    (b64 : List Char → Option (List Char)) (urlName : List Char → List Char)
    (documents : List Doc) (source_files_filter : Option (List (List Char))) :
    Except (List Char) (List DisplayDoc) :=
  if documents.isEmpty then Except.ok []
  else
    let uniq := unique_documents documents
    match source_files_filter with
    | none => Except.ok (uniq.map (fun d => mkRecord (resolveName b64 urlName d) d))
    | some [] => Except.ok (uniq.map (fun d => mkRecord (resolveName b64 urlName d) d))
    | some (c :: cs) =>
      let kept := uniq.filter
        (fun d => isCited seqSim (c :: cs) (resolveName b64 urlName d))
      if kept.isEmpty then fallbackRecords b64 urlName uniq
      else Except.ok (kept.map (fun d => mkRecord (resolveName b64 urlName d) d))

/-- Full functional characterization of the budget walk `limitLoop`:
there is a halting index `k` such that the first `k` documents were
included whole and fit the budget, the walk halted exactly because
document `k` (when present) did not fit, and the accumulated text is the
concatenation of the whole documents followed by the partial-inclusion
tail. -/
theorem limitLoop_spec (maxT : Int) :
    ∀ (docs : List Doc) (cur : Int) (acc : List Char),
    ∃ k : Nat, k ≤ docs.length ∧
      (0 < k → cur + sumTokens (docs.take k) ≤ maxT) ∧
      (∀ hk : k < docs.length,
        cur + sumTokens (docs.take k) + docTokens (docs.get ⟨k, hk⟩) > maxT) ∧
      limitLoop maxT docs cur acc =
        acc ++ fullText (docs.take k) ++
          budgetTail (docs.drop k) (maxT - cur - sumTokens (docs.take k)) := by
  intro docs
  induction docs with
  | nil =>
    intro cur acc
    refine ⟨0, by simp, by simp, by simp, ?_⟩
    simp [limitLoop, fullText, budgetTail, sumTokens]
  | cons d ds ih =>
    intro cur acc
    by_cases h : cur + docTokens d > maxT
    · refine ⟨0, by simp, by simp, ?_, ?_⟩
      · intro hk
        simpa [sumTokens] using h
      · simp only [limitLoop, if_pos h, List.take_zero, List.drop_zero,
          fullText, budgetTail, sumTokens, List.map_nil, List.flatten_nil,
          List.sum_nil, List.append_nil, sub_zero]
        by_cases h2 : max 0 ((maxT - cur) * 3) > 100
        · simp [h2, List.append_assoc]
        · simp [h2]
    · obtain ⟨k0, hk0, hbudget, hhalt, heq⟩ :=
        ih (cur + docTokens d) (acc ++ '\n' :: '\n' :: d.page_content)
      refine ⟨k0 + 1, by simpa using hk0, ?_, ?_, ?_⟩
      · intro _
        rcases Nat.eq_zero_or_pos k0 with h0 | h0
        · subst h0
          simpa [sumTokens] using not_lt.mp h
        · have := hbudget h0
          simp only [List.take_succ_cons, sumTokens, List.map_cons, List.sum_cons] at this ⊢
          linarith [this]
      · intro hk
        have hk2 : k0 < ds.length := by simpa using hk
        have := hhalt hk2
        simp only [List.take_succ_cons, sumTokens, List.map_cons, List.sum_cons,
          List.get_cons_succ] at this ⊢
        linarith [this]
      · have hstep : limitLoop maxT (d :: ds) cur acc =
            limitLoop maxT ds (cur + docTokens d) (acc ++ '\n' :: '\n' :: d.page_content) := by
          simp [limitLoop, h]
        rw [hstep, heq]
        simp only [List.take_succ_cons, List.drop_succ_cons, fullText, List.map_cons,
          List.flatten_cons, sumTokens, List.sum_cons, List.append_assoc]
        congr 2
        ring_nf

/-- Stripping whitespace never lengthens a string. -/
theorem pyStrip_length_le (s : List Char) : (pyStrip s).length ≤ s.length := by
  unfold pyStrip
  calc ((s.dropWhile Char.isWhitespace).reverse.dropWhile Char.isWhitespace).reverse.length
      = ((s.dropWhile Char.isWhitespace).reverse.dropWhile Char.isWhitespace).length := by
        simp
    _ ≤ (s.dropWhile Char.isWhitespace).reverse.length :=
        (List.dropWhile_suffix _).sublist.length_le
    _ = (s.dropWhile Char.isWhitespace).length := by simp
    _ ≤ s.length := (List.dropWhile_suffix _).sublist.length_le

/-- One document's character count exceeds three times its approximate
token count by at most the floor-division remainder (2 characters). -/
theorem page_length_le_tokens (d : Doc) :
    (d.page_content.length : Int) ≤ 3 * docTokens d + 2 := by
  set L : Int := (d.page_content.length : Int) with hL
  have hL0 : 0 ≤ L := by positivity
  have hdm := Int.ediv_add_emod L 3
  have hm1 : L % 3 < 3 := Int.emod_lt_of_pos L (by norm_num)
  have hmax : L / 3 ≤ max 1 (L / 3) := le_max_right _ _
  simp only [docTokens, ← hL]
  linarith

/-- The fully-included part of the combined text is bounded by three
characters per budgeted token plus four per document (separator plus
rounding). -/
theorem fullText_length_le (docs : List Doc) :
    ((fullText docs).length : Int) ≤ 3 * sumTokens docs + 4 * docs.length := by
  induction docs with
  | nil => simp [fullText, sumTokens]
  | cons d ds ih =>
    have hd := page_length_le_tokens d
    have hstep : (fullText (d :: ds)).length =
        2 + d.page_content.length + (fullText ds).length := by
      simp [fullText]
      omega
    have hsum : sumTokens (d :: ds) = docTokens d + sumTokens ds := by
      simp [sumTokens]
    rw [hstep, hsum]
    simp only [List.length_cons]
    push_cast
    linarith

/-- The partial-inclusion tail adds at most the remaining budget's worth
of characters plus separator and ellipsis. -/
theorem budgetTail_length_le (rest : List Doc) (remT : Int) :
    ((budgetTail rest remT).length : Int) ≤ max 0 (3 * remT) + 5 := by
  cases rest with
  | nil =>
    have : (0 : Int) ≤ max 0 (3 * remT) := le_max_left _ _
    simp [budgetTail]
    linarith
  | cons d ds =>
    simp only [budgetTail]
    by_cases h : max 0 (remT * 3) > 100
    · simp only [if_pos h, List.length_append, List.length_cons, List.length_take,
        List.length_nil]
      push_cast
      have h1 : ((max 0 (remT * 3)).toNat : Int) = max 0 (remT * 3) :=
        Int.toNat_of_nonneg (le_max_left _ _)
      have h2 : (((max 0 (remT * 3)).toNat : Int)) ⊓ ((d.page_content.length : Nat) : Int)
          ≤ (((max 0 (remT * 3)).toNat : Nat) : Int) := min_le_left _ _
      have h3 : max 0 (remT * 3) = max 0 (3 * remT) := by ring_nf
      linarith [h1, h2, h3]
    · simp only [if_neg h, List.length_nil]
      have : (0 : Int) ≤ max 0 (3 * remT) := le_max_left _ _
      push_cast
      linarith

/-- C7: for every document list and every budget, ContextBudgeter
(`limit_docs_with_metadata`) walks documents in rank order accumulating
an approximate token count (1 token ≈ 3 characters); when adding the
next document would exceed the budget it includes a partial slice of the
remaining budget's worth of characters only if that remainder exceeds
100 characters (otherwise it contributes nothing) and then halts; the
returned `documents` field is the unchanged input list, and empty input
yields empty `combined_text` and an empty document list. -/
theorem C7_context_budgeter (docs : List Doc) (maxT : Int) :
    (limit_docs_with_metadata docs maxT).documents = docs ∧
    (docs = [] → (limit_docs_with_metadata docs maxT).combined_text = []) ∧
    ∃ k : Nat, k ≤ docs.length ∧
      (0 < k → sumTokens (docs.take k) ≤ maxT) ∧
      (∀ hk : k < docs.length,
        sumTokens (docs.take k) + docTokens (docs.get ⟨k, hk⟩) > maxT) ∧
      (limit_docs_with_metadata docs maxT).combined_text =
        pyStrip (fullText (docs.take k) ++
          budgetTail (docs.drop k) (maxT - sumTokens (docs.take k))) := by
  by_cases hd : docs.isEmpty
  · have hnil : docs = [] := List.isEmpty_iff.mp hd
    subst hnil
    refine ⟨by simp [limit_docs_with_metadata], by simp [limit_docs_with_metadata],
      0, by simp, by simp, by simp, ?_⟩
    simp [limit_docs_with_metadata, fullText, budgetTail, pyStrip]
  · obtain ⟨k, hk, hb, hh, he⟩ := limitLoop_spec maxT docs 0 []
    refine ⟨by simp [limit_docs_with_metadata, hd], ?_, k, hk, ?_, ?_, ?_⟩
    · intro h
      subst h
      simp at hd
    · intro h0
      have := hb h0
      linarith
    · intro hklt
      have := hh hklt
      linarith
    · simp only [limit_docs_with_metadata, hd, Bool.false_eq_true, if_false]
      rw [he]
      simp

set_option maxRecDepth 100000 in
/-- C8 fails as stated: with budget 30 and thirty 5-character documents
(1 approximate token each) the combined text is 208 characters long,
exceeding budget*3 + 100 = 190 — the overrun comes from floor-division
rounding and separators on every document, not from a single
100-character-bounded partial inclusion. -/
theorem C8_counterexample :
    (limit_docs_with_metadata
        (List.replicate 30 ⟨"aaaaa".toList, none, none⟩) 30).combined_text.length
      = 208 ∧
    ¬ ((limit_docs_with_metadata
        (List.replicate 30 ⟨"aaaaa".toList, none, none⟩) 30).combined_text.length
      ≤ 30 * 3 + 100) := by
  refine ⟨by decide, by decide⟩

/-- C8 amended: the combined text's character length is at most
`budget * 3` plus an overrun of at most 4 characters per document
(separator plus floor-division rounding) plus 5 for the single
partial-inclusion separator and ellipsis. -/
theorem C8_combined_text_bound (docs : List Doc) (maxT : Int) (hT : 0 ≤ maxT) :
    ((limit_docs_with_metadata docs maxT).combined_text.length : Int) ≤
      3 * maxT + 4 * docs.length + 5 := by
  by_cases hd : docs.isEmpty
  · have h0 : (0 : Int) ≤ (docs.length : Int) := by positivity
    simp only [limit_docs_with_metadata, hd, if_true]
    simp
    linarith
  · obtain ⟨k, hk, hb, hh, he⟩ := limitLoop_spec maxT docs 0 []
    have hcomb : (limit_docs_with_metadata docs maxT).combined_text =
        pyStrip (fullText (docs.take k) ++
          budgetTail (docs.drop k) (maxT - sumTokens (docs.take k))) := by
      simp only [limit_docs_with_metadata, hd, Bool.false_eq_true, if_false]
      rw [he]
      simp
    rw [hcomb]
    have h1 := pyStrip_length_le (fullText (docs.take k) ++
      budgetTail (docs.drop k) (maxT - sumTokens (docs.take k)))
    have h1i : (((pyStrip (fullText (docs.take k) ++
        budgetTail (docs.drop k) (maxT - sumTokens (docs.take k)))).length : Nat) : Int) ≤
        (((fullText (docs.take k) ++
        budgetTail (docs.drop k) (maxT - sumTokens (docs.take k))).length : Nat) : Int) := by
      exact_mod_cast h1
    have h2 := fullText_length_le (docs.take k)
    have h3 := budgetTail_length_le (docs.drop k) (maxT - sumTokens (docs.take k))
    have happ : (((fullText (docs.take k) ++
        budgetTail (docs.drop k) (maxT - sumTokens (docs.take k))).length : Nat) : Int) =
        ((fullText (docs.take k)).length : Int) +
        ((budgetTail (docs.drop k) (maxT - sumTokens (docs.take k))).length : Int) := by
      push_cast [List.length_append]
      ring
    have htake : ((docs.take k).length : Int) ≤ (docs.length : Int) := by
      have : (docs.take k).length ≤ docs.length := by
        rw [List.length_take]
        exact min_le_right _ _
      exact_mod_cast this
    rcases Nat.eq_zero_or_pos k with h0 | h0
    · subst h0
      simp only [List.take_zero, sumTokens, List.map_nil, List.sum_nil, sub_zero,
        fullText, List.flatten_nil, List.length_nil, Nat.cast_zero] at h1i h2 h3 happ ⊢
      have hmx : max 0 (3 * maxT) = 3 * maxT := max_eq_right (by linarith)
      rw [hmx] at h3
      have hnn : (0 : Int) ≤ (docs.length : Int) := by positivity
      linarith
    · have hbud : sumTokens (docs.take k) ≤ maxT := by
        have := hb h0
        linarith
      have hmx : max 0 (3 * (maxT - sumTokens (docs.take k))) =
          3 * (maxT - sumTokens (docs.take k)) := max_eq_right (by linarith)
      rw [hmx] at h3
      have hkd : ((docs.take k).length : Int) ≤ (docs.length : Int) := htake
      linarith

/-- The budgeter returns its input document list unchanged. -/
theorem limit_documents_eq (docs : List Doc) (maxT : Int) :
    (limit_docs_with_metadata docs maxT).documents = docs := by
  by_cases hd : docs.isEmpty
  · have hnil : docs = [] := List.isEmpty_iff.mp hd
    subst hnil
    simp [limit_docs_with_metadata]
  · simp [limit_docs_with_metadata, hd]

/-- Characterization of the inner buffer-flushing loop, for any fuel at
least the buffer length.  When the loop hands control back, the events
are exactly the SAFE_CHUNK images of the classified windows, every
classified window was non-HARMFUL and exactly `size` characters long,
the windows concatenate with the leftover buffer to the original buffer,
the leftover is shorter than `size`, the first flag is cleared exactly
when a window was flushed, and the accumulator folded every verdict in.
When the loop terminates on a HARMFUL verdict, the harmful window is the
last one classified, the events end with BLOCKED then DIAGNOSTICS, and
the windows form a head slice of the buffer. -/
theorem flushLoop_spec (cg : List Char → GuardResult) (size : Nat)
    (hs : 0 < size) :
    ∀ (fuel : Nat) (buffer : List Char), buffer.length ≤ fuel →
      ∀ (first : Bool) (diag : DiagAcc),
      (∀ evs ws st,
        flushLoop cg size fuel buffer first diag = StepOut.cont evs ws st →
        evs = ws.map Event.SAFE_CHUNK ∧
        (∀ w ∈ ws, (cg w).decision ≠ Decision.HARMFUL ∧ w.length = size) ∧
        ws.flatten ++ st.buffer = buffer ∧
        st.buffer.length < size ∧
        st.is_first_chunk = (first && ws.isEmpty) ∧
        st.diag = foldDiag cg diag ws) ∧
      (∀ evs ws,
        flushLoop cg size fuel buffer first diag = StepOut.blocked evs ws →
        ∃ ws0 w, ws = ws0 ++ [w] ∧
          (∀ u ∈ ws0, (cg u).decision ≠ Decision.HARMFUL) ∧
          (cg w).decision = Decision.HARMFUL ∧
          evs = ws0.map Event.SAFE_CHUNK ++
            [Event.BLOCKED (blockedMessage (cg w).reason),
             Event.DIAGNOSTICS (foldDiag cg diag ws)] ∧
          (∀ u ∈ ws, u.length = size) ∧
          ∃ rest, ws.flatten ++ rest = buffer) := by
  intro fuel
  induction fuel with
  | zero =>
    intro buffer hlen first diag
    constructor
    · intro evs ws st heq
      simp only [flushLoop] at heq
      injection heq with h1 h2 h3
      subst h1
      subst h2
      subst h3
      refine ⟨rfl, by simp, by simp, ?_, by simp, rfl⟩
      show buffer.length < size
      omega
    · intro evs ws heq
      simp only [flushLoop] at heq
      cases heq
  | succ n ih =>
    intro buffer hlen first diag
    by_cases hcond : size ≤ buffer.length
    · have hc : 0 < size ∧ size ≤ buffer.length := ⟨hs, hcond⟩
      have hwlen : (buffer.take size).length = size := by
        simp [List.length_take]
        omega
      have hdroplen : (buffer.drop size).length ≤ n := by
        simp [List.length_drop]
        omega
      by_cases hH : (cg (buffer.take size)).decision = Decision.HARMFUL
      · constructor
        · intro evs ws st heq
          simp only [flushLoop, if_pos hc] at heq
          simp only [if_pos hH] at heq
          cases heq
        · intro evs ws heq
          simp only [flushLoop, if_pos hc] at heq
          simp only [if_pos hH] at heq
          injection heq with h1 h2
          subst h1
          subst h2
          refine ⟨[], buffer.take size, by simp, by simp, hH, ?_, ?_, ?_⟩
          · simp [foldDiag]
          · intro u hu
            simp at hu
            subst hu
            exact hwlen
          · exact ⟨buffer.drop size, by simp⟩
      · obtain ⟨ihc, ihb⟩ := ih (buffer.drop size) hdroplen false
          (mergeDiag diag (cg (buffer.take size)))
        constructor
        · intro evs ws st heq
          simp only [flushLoop, if_pos hc] at heq
          simp only [if_neg hH] at heq
          split at heq
          next evs2 ws2 hrec =>
            cases heq
          next evs2 ws2 st2 hrec =>
            injection heq with h1 h2 h3
            subst h1
            subst h2
            subst h3
            obtain ⟨he, hw, hbuf2, hlt, hfirst, hdiag⟩ := ihc evs2 ws2 st2 hrec
            refine ⟨by simp [he], ?_, ?_, hlt, ?_, ?_⟩
            · intro w hw2
              rcases List.mem_cons.mp hw2 with h | h
              · subst h
                exact ⟨hH, hwlen⟩
              · exact hw w h
            · simp only [List.flatten_cons, List.append_assoc, hbuf2]
              simp
            · rw [hfirst]
              simp
            · rw [hdiag]
              simp [foldDiag]
        · intro evs ws heq
          simp only [flushLoop, if_pos hc] at heq
          simp only [if_neg hH] at heq
          split at heq
          next evs2 ws2 hrec =>
            injection heq with h1 h2
            subst h1
            subst h2
            obtain ⟨ws0, w, hsplit, hsafe, hharm, hevs, hlens, rest, hrest⟩ :=
              ihb evs2 ws2 hrec
            refine ⟨buffer.take size :: ws0, w, by simp [hsplit], ?_, hharm,
              ?_, ?_, ?_⟩
            · intro u hu
              rcases List.mem_cons.mp hu with h | h
              · subst h
                exact hH
              · exact hsafe u h
            · rw [hevs]
              simp [hsplit, foldDiag]
            · intro u hu
              rcases List.mem_cons.mp hu with h | h
              · subst h
                exact hwlen
              · exact hlens u h
            · refine ⟨rest, ?_⟩
              simp only [List.flatten_cons, List.append_assoc, hrest]
              simp
          next evs2 ws2 st2 hrec =>
            cases heq
    · have hbuf : ¬ (0 < size ∧ size ≤ buffer.length) := by
        intro hx
        exact hcond hx.2
      constructor
      · intro evs ws st heq
        simp only [flushLoop, if_neg hbuf] at heq
        injection heq with h1 h2 h3
        subst h1
        subst h2
        subst h3
        refine ⟨rfl, by simp, by simp, ?_, by simp, rfl⟩
        show buffer.length < size
        omega
      · intro evs ws heq
        simp only [flushLoop, if_neg hbuf] at heq
        cases heq

/-- Characterization of the outer fragment loop.  When it hands control
back, the events are the SAFE_CHUNK images of the classified windows,
every classified window was non-HARMFUL, the windows concatenate with
the final buffer to the initial buffer plus all fragment text, the first
flag is cleared exactly when some window was flushed, the accumulator
folded every verdict in, every window is `init` or `subseq` characters
long and the first one is `init` long, and the final buffer is shorter
than the largest threshold (shorter than `init` when nothing was ever
flushed).  When it terminates on a HARMFUL verdict, the harmful window
is the last one classified and the events end with BLOCKED then
DIAGNOSTICS. -/
theorem runFrags_spec (cg : List Char → GuardResult) (init subseq : Nat)
    (hinit : 0 < init) (hsub : 0 < subseq) :
    ∀ (frags : List (List Char)) (st : FlushState),
      (∀ evs ws st2, runFrags cg init subseq frags st = StepOut.cont evs ws st2 →
        evs = ws.map Event.SAFE_CHUNK ∧
        (∀ w ∈ ws, (cg w).decision ≠ Decision.HARMFUL) ∧
        ws.flatten ++ st2.buffer = st.buffer ++ frags.flatten ∧
        st2.is_first_chunk = (st.is_first_chunk && ws.isEmpty) ∧
        st2.diag = foldDiag cg st.diag ws ∧
        (∀ w ∈ ws, w.length = init ∨ w.length = subseq) ∧
        (st.is_first_chunk = true →
          ∀ h1, ws.head? = some h1 → h1.length = init) ∧
        (frags = [] → st2 = st) ∧
        (frags ≠ [] → st2.buffer.length < max init subseq) ∧
        (st.is_first_chunk = true → ws = [] → frags ≠ [] →
          st2.buffer.length < init)) ∧
      (∀ evs ws, runFrags cg init subseq frags st = StepOut.blocked evs ws →
        ∃ ws0 w, ws = ws0 ++ [w] ∧
          (∀ u ∈ ws0, (cg u).decision ≠ Decision.HARMFUL) ∧
          (cg w).decision = Decision.HARMFUL ∧
          evs = ws0.map Event.SAFE_CHUNK ++
            [Event.BLOCKED (blockedMessage (cg w).reason),
             Event.DIAGNOSTICS (foldDiag cg st.diag ws)] ∧
          (∀ u ∈ ws, u.length = init ∨ u.length = subseq) ∧
          (st.is_first_chunk = true →
            ∀ h1, ws.head? = some h1 → h1.length = init) ∧
          ∃ rest, ws.flatten ++ rest = st.buffer ++ frags.flatten) := by
  intro frags
  induction frags with
  | nil =>
    intro st
    constructor
    · intro evs ws st2 heq
      rw [runFrags] at heq
      injection heq with h1 h2 h3
      subst h1
      subst h2
      subst h3
      refine ⟨rfl, by simp, by simp, by simp, rfl, by simp, ?_, fun _ => rfl,
        by simp, by simp⟩
      intro _ h1 hh
      simp at hh
    · intro evs ws heq
      rw [runFrags] at heq
      cases heq
  | cons f fs ih =>
    intro st
    have hpos : 0 < (if st.is_first_chunk then init else subseq) := by
      by_cases hb : st.is_first_chunk <;> simp [hb, hinit, hsub]
    have hsize_le : (if st.is_first_chunk then init else subseq) ≤ max init subseq := by
      by_cases hb : st.is_first_chunk <;>
        simp [hb, le_max_left, le_max_right]
    have hsize_or : (if st.is_first_chunk then init else subseq) = init ∨
        (if st.is_first_chunk then init else subseq) = subseq := by
      by_cases hb : st.is_first_chunk <;> simp [hb]
    obtain ⟨Fc, Fb⟩ := flushLoop_spec cg _ hpos (st.buffer ++ f).length
      (st.buffer ++ f) le_rfl st.is_first_chunk st.diag
    constructor
    · intro evs ws st2 heq
      rw [runFrags] at heq
      split at heq
      next evs1 ws1 hf =>
        cases heq
      next evs1 ws1 stA hf =>
        split at heq
        next evs2 ws2 hr =>
          cases heq
        next evs2 ws2 st3 hr =>
          injection heq with h1 h2 h3
          subst h1
          subst h2
          subst h3
          obtain ⟨he1, hw1, hbuf1, hlt1, hfirst1, hdiag1⟩ := Fc evs1 ws1 stA hf
          obtain ⟨ihc, _⟩ := ih stA
          obtain ⟨he2, hw2, hbuf2, hfirst2, hdiag2, hsz2, hhead2, hnil2,
            hend2, hfl2⟩ := ihc evs2 ws2 st3 hr
          refine ⟨?_, ?_, ?_, ?_, ?_, ?_, ?_, ?_, ?_, ?_⟩
          · rw [he1, he2, List.map_append]
          · intro w hw
            rcases List.mem_append.mp hw with h | h
            · exact (hw1 w h).1
            · exact hw2 w h
          · rw [List.flatten_append, List.append_assoc, hbuf2, ← List.append_assoc,
              hbuf1, List.flatten_cons]
            simp
          · rw [hfirst2, hfirst1]
            cases ws1 <;> simp
          · rw [hdiag2, hdiag1, foldDiag, foldDiag, foldDiag, List.foldl_append]
          · intro w hw
            rcases List.mem_append.mp hw with h | h
            · rcases hsize_or with hs | hs
              · exact Or.inl (hs ▸ (hw1 w h).2)
              · exact Or.inr (hs ▸ (hw1 w h).2)
            · exact hsz2 w h
          · intro hflag h1 hh
            cases hws1 : ws1 with
            | nil =>
              subst hws1
              simp at hh
              have hAfirst : stA.is_first_chunk = true := by
                rw [hfirst1, hflag]
                simp
              exact hhead2 hAfirst h1 hh
            | cons a t =>
              subst hws1
              simp at hh
              have ha : a ∈ a :: t := List.mem_cons_self a t
              have := (hw1 a ha).2
              rw [hflag] at this
              simp at this
              rw [← hh]
              exact this
          · intro habs
            cases habs
          · intro _
            cases hfs : fs with
            | nil =>
              subst hfs
              have := hnil2 rfl
              rw [this]
              exact lt_of_lt_of_le hlt1 hsize_le
            | cons g gs =>
              subst hfs
              exact hend2 (by simp)
          · intro hflag hwsnil _
            have hws1 : ws1 = [] := by
              cases ws1 with
              | nil => rfl
              | cons a t => simp at hwsnil
            have hws2 : ws2 = [] := by
              cases ws2 with
              | nil => rfl
              | cons a t =>
                rw [hws1] at hwsnil
                simp at hwsnil
            have hAfirst : stA.is_first_chunk = true := by
              rw [hfirst1, hflag, hws1]
              simp
            have hszinit : (if st.is_first_chunk then init else subseq) = init := by
              simp [hflag]
            cases hfs : fs with
            | nil =>
              subst hfs
              have := hnil2 rfl
              rw [this]
              rw [hszinit] at hlt1
              exact hlt1
            | cons g gs =>
              subst hfs
              exact hfl2 hAfirst hws2 (by simp)
    · intro evs ws heq
      rw [runFrags] at heq
      split at heq
      next evs1 ws1 hf =>
        injection heq with h1 h2
        subst h1
        subst h2
        obtain ⟨ws0, w, hsplit, hsafe, hharm, hevs, hlen, rest, hrest⟩ :=
          Fb evs1 ws1 hf
        refine ⟨ws0, w, hsplit, hsafe, hharm, hevs, ?_, ?_, ?_⟩
        · intro u hu
          rcases hsize_or with hs | hs
          · exact Or.inl (hs ▸ hlen u hu)
          · exact Or.inr (hs ▸ hlen u hu)
        · intro hflag h1 hh
          have hmem : h1 ∈ ws1 := List.mem_of_mem_head? hh
          have := hlen h1 hmem
          rw [hflag] at this
          simp at this
          exact this
        · refine ⟨rest ++ fs.flatten, ?_⟩
          rw [← List.append_assoc, hrest, List.flatten_cons]
          simp
      next evs1 ws1 stA hf =>
        split at heq
        next evs2 ws2 hr =>
          injection heq with h1 h2
          subst h1
          subst h2
          obtain ⟨he1, hw1, hbuf1, hlt1, hfirst1, hdiag1⟩ := Fc evs1 ws1 stA hf
          obtain ⟨_, ihb⟩ := ih stA
          obtain ⟨ws0, w, hsplit2, hsafe2, hharm2, hevs2, hsz2, hhead2,
            rest, hrest2⟩ := ihb evs2 ws2 hr
          refine ⟨ws1 ++ ws0, w, by rw [hsplit2, List.append_assoc], ?_,
            hharm2, ?_, ?_, ?_, ?_⟩
          · intro u hu
            rcases List.mem_append.mp hu with h | h
            · exact (hw1 u h).1
            · exact hsafe2 u h
          · rw [he1, hevs2, hdiag1]
            have hdfold : foldDiag cg (foldDiag cg st.diag ws1) ws2 =
                foldDiag cg st.diag (ws1 ++ ws2) := by
              rw [foldDiag, foldDiag, foldDiag, List.foldl_append]
            rw [hdfold]
            simp [List.map_append]
          · intro u hu
            rcases List.mem_append.mp hu with h | h
            · rcases hsize_or with hs | hs
              · exact Or.inl (hs ▸ (hw1 u h).2)
              · exact Or.inr (hs ▸ (hw1 u h).2)
            · exact hsz2 u h
          · intro hflag h1 hh
            cases hws1 : ws1 with
            | nil =>
              subst hws1
              simp at hh
              have hAfirst : stA.is_first_chunk = true := by
                rw [hfirst1, hflag]
                simp
              exact hhead2 hAfirst h1 hh
            | cons a t =>
              subst hws1
              simp at hh
              have ha : a ∈ a :: t := List.mem_cons_self a t
              have := (hw1 a ha).2
              rw [hflag] at this
              simp at this
              rw [← hh]
              exact this
          · refine ⟨rest, ?_⟩
            rw [List.flatten_append, List.append_assoc, hrest2,
              ← List.append_assoc, hbuf1, List.flatten_cons]
            simp
        next evs2 ws2 st3 hr =>
          cases heq

/-- A list head is no longer than the flattened list. -/
theorem head_length_le_flatten (ws : List (List Char)) (h1 : List Char)
    (hh : ws.head? = some h1) : h1.length ≤ ws.flatten.length := by
  cases ws with
  | nil => cases hh
  | cons a t =>
    injection hh with h
    subst h
    simp

/-- SAFE_CHUNK payload extraction distributes over a SAFE_CHUNK block. -/
theorem safeTexts_map_append (ws : List (List Char)) (es : List Event) :
    safeTexts (ws.map Event.SAFE_CHUNK ++ es) = ws ++ safeTexts es := by
  induction ws with
  | nil => simp
  | cons a t ih => simp [safeTexts, ih]

/-- A SAFE_CHUNK block contains no BLOCKED event. -/
theorem hasBlocked_map_append (ws : List (List Char)) (es : List Event) :
    hasBlocked (ws.map Event.SAFE_CHUNK ++ es) = hasBlocked es := by
  induction ws with
  | nil => rfl
  | cons a t ih =>
    simp only [hasBlocked, List.map_cons, List.cons_append, List.any_cons] at ih ⊢
    exact ih

/-- Full characterization of one stream run, for positive thresholds.
Every classified window except possibly the last is exactly `init` or
`subseq` characters long; every window is non-empty and at most
`max init subseq` long; the first window is `min init N` characters long
where `N` is the total upstream length; and the run has exactly one of
three shapes: SAFE_CHUNK events for every window but a final HARMFUL one
followed by BLOCKED and DIAGNOSTICS, or SAFE_CHUNK events for all (only
non-HARMFUL) windows followed by ERROR and DIAGNOSTICS when the upstream
raised, or SAFE_CHUNK events for all (only non-HARMFUL) windows followed
by DIAGNOSTICS on normal exhaustion — with the windows reconstructing a
contiguous head of the upstream text in the first two shapes and all of
it in the third. -/
theorem streamFilterRun_spec (cg : List Char → GuardResult)
    (init subseq : Nat) (hinit : 0 < init) (hsub : 0 < subseq)
    (s : StreamInput) :
    (∀ w ∈ (streamFilterRun cg init subseq s).2.dropLast,
        w.length = init ∨ w.length = subseq) ∧
    (∀ w ∈ (streamFilterRun cg init subseq s).2,
        0 < w.length ∧ w.length ≤ max init subseq) ∧
    (∀ h1, (streamFilterRun cg init subseq s).2.head? = some h1 →
        h1.length = min init s.fragments.flatten.length) ∧
    ((∃ ws0 w d, (streamFilterRun cg init subseq s).2 = ws0 ++ [w] ∧
        (streamFilterRun cg init subseq s).1 =
          ws0.map Event.SAFE_CHUNK ++
            [Event.BLOCKED (blockedMessage (cg w).reason),
             Event.DIAGNOSTICS d] ∧
        (∀ u ∈ ws0, (cg u).decision ≠ Decision.HARMFUL) ∧
        (cg w).decision = Decision.HARMFUL ∧
        ∃ rest, (ws0 ++ [w]).flatten ++ rest = s.fragments.flatten) ∨
     (∃ m d, s.err = some m ∧
        (streamFilterRun cg init subseq s).1 =
          ((streamFilterRun cg init subseq s).2).map Event.SAFE_CHUNK ++
            [Event.ERROR (streamErrorMessage m), Event.DIAGNOSTICS d] ∧
        (∀ u ∈ (streamFilterRun cg init subseq s).2,
          (cg u).decision ≠ Decision.HARMFUL) ∧
        ∃ rest, ((streamFilterRun cg init subseq s).2).flatten ++ rest =
          s.fragments.flatten) ∨
     (∃ d, s.err = none ∧
        (streamFilterRun cg init subseq s).1 =
          ((streamFilterRun cg init subseq s).2).map Event.SAFE_CHUNK ++
            [Event.DIAGNOSTICS d] ∧
        (∀ u ∈ (streamFilterRun cg init subseq s).2,
          (cg u).decision ≠ Decision.HARMFUL) ∧
        ((streamFilterRun cg init subseq s).2).flatten =
          s.fragments.flatten)) := by
  obtain ⟨Rc, Rb⟩ := runFrags_spec cg init subseq hinit hsub s.fragments
    ⟨[], true, zeroDiag⟩
  cases hrun : runFrags cg init subseq s.fragments ⟨[], true, zeroDiag⟩ with
  | blocked evs1 ws1 =>
    have hpair : streamFilterRun cg init subseq s = (evs1, ws1) := by
      simp [streamFilterRun, hrun]
    rw [hpair]
    obtain ⟨ws0, w, hsplit, hsafe, hharm, hevs, hsz, hhead, rest, hrest⟩ :=
      Rb evs1 ws1 hrun
    simp only at hrest
    rw [List.nil_append] at hrest
    refine ⟨?_, ?_, ?_, ?_⟩
    · intro u hu
      exact hsz u (List.dropLast_subset ws1 hu)
    · intro u hu
      rcases hsz u hu with h | h <;>
        constructor <;> simp [h, hinit, hsub, le_max_left, le_max_right]
    · intro h1 hh
      have hlen1 : h1.length = init := hhead rfl h1 hh
      have hle1 : h1.length ≤ ws1.flatten.length := head_length_le_flatten ws1 h1 hh
      have hle2 : ws1.flatten.length ≤ s.fragments.flatten.length := by
        rw [← hrest]
        simp
      rw [hlen1]
      exact (min_eq_left (by omega)).symm
    · refine Or.inl ⟨ws0, w, foldDiag cg zeroDiag ws1, hsplit, hevs, hsafe,
        hharm, rest, ?_⟩
      rw [← hsplit]
      exact hrest
  | cont evs1 ws1 stA =>
    obtain ⟨he1, hw1, hbuf1, hfirst1, hdiag1, hsz1, hhead1, hnil1, hend1,
      hfl1⟩ := Rc evs1 ws1 stA hrun
    simp only at hbuf1
    rw [List.nil_append] at hbuf1
    have hheadmin : ∀ h1, ws1.head? = some h1 →
        h1.length = min init s.fragments.flatten.length := by
      intro h1 hh
      have hlen1 : h1.length = init := hhead1 rfl h1 hh
      have hle1 : h1.length ≤ ws1.flatten.length := head_length_le_flatten ws1 h1 hh
      have hle2 : ws1.flatten.length ≤ s.fragments.flatten.length := by
        rw [← hbuf1]
        simp
      rw [hlen1]
      exact (min_eq_left (by omega)).symm
    have hbounds1 : ∀ w ∈ ws1, 0 < w.length ∧ w.length ≤ max init subseq := by
      intro u hu
      rcases hsz1 u hu with h | h <;>
        constructor <;> simp [h, hinit, hsub, le_max_left, le_max_right]
    cases herr : s.err with
    | some m =>
      have hpair : streamFilterRun cg init subseq s =
          (evs1 ++ [Event.ERROR (streamErrorMessage m),
            Event.DIAGNOSTICS stA.diag], ws1) := by
        simp [streamFilterRun, hrun, herr]
      rw [hpair]
      refine ⟨?_, hbounds1, hheadmin, ?_⟩
      · intro u hu
        exact hsz1 u (List.dropLast_subset ws1 hu)
      · refine Or.inr (Or.inl ⟨m, stA.diag, rfl, ?_, hw1, stA.buffer, hbuf1⟩)
        rw [he1]
    | none =>
      by_cases hempty : stA.buffer.isEmpty
      · have hbufnil : stA.buffer = [] := List.isEmpty_iff.mp hempty
        have hpair : streamFilterRun cg init subseq s =
            (evs1 ++ [Event.DIAGNOSTICS stA.diag], ws1) := by
          simp [streamFilterRun, hrun, herr, hempty]
        rw [hpair]
        refine ⟨?_, hbounds1, hheadmin, ?_⟩
        · intro u hu
          exact hsz1 u (List.dropLast_subset ws1 hu)
        · refine Or.inr (Or.inr ⟨stA.diag, rfl, ?_, hw1, ?_⟩)
          · rw [he1]
          · rw [← hbuf1, hbufnil]
            simp
      · have hbne : stA.buffer ≠ [] := by
          intro h0
          rw [h0] at hempty
          exact hempty rfl
        have hfragsne : s.fragments ≠ [] := by
          intro h0
          have := hnil1 h0
          rw [this] at hbne
          exact hbne rfl
        have hbufpos : 0 < stA.buffer.length := by
          cases hb : stA.buffer with
          | nil => exact absurd hb hbne
          | cons a t => simp [hb]
        have hbufmax : stA.buffer.length < max init subseq := hend1 hfragsne
        have hcommon1 : ∀ u ∈ (ws1 ++ [stA.buffer]).dropLast,
            u.length = init ∨ u.length = subseq := by
          rw [List.dropLast_concat]
          exact hsz1
        have hcommon2 : ∀ u ∈ ws1 ++ [stA.buffer],
            0 < u.length ∧ u.length ≤ max init subseq := by
          intro u hu
          rcases List.mem_append.mp hu with h | h
          · exact hbounds1 u h
          · simp at h
            subst h
            exact ⟨hbufpos, le_of_lt hbufmax⟩
        have hcommon3 : ∀ h1, (ws1 ++ [stA.buffer]).head? = some h1 →
            h1.length = min init s.fragments.flatten.length := by
          intro h1 hh
          cases hws1 : ws1 with
          | nil =>
            subst hws1
            simp at hh
            have hball : stA.buffer = s.fragments.flatten := by
              rw [← hbuf1]
              simp
            have hlt : stA.buffer.length < init := hfl1 rfl rfl hfragsne
            subst hh
            rw [hball] at hlt ⊢
            exact (min_eq_right (le_of_lt hlt)).symm
          | cons a t =>
            subst hws1
            simp at hh
            have hlen1 : h1.length = init := by
              apply hhead1 rfl
              rw [← hh]
              rfl
            have hle1 : h1.length ≤ (a :: t).flatten.length := by
              apply head_length_le_flatten
              rw [← hh]
              rfl
            have hle2 : (a :: t).flatten.length ≤ s.fragments.flatten.length := by
              rw [← hbuf1]
              simp
            rw [hlen1]
            exact (min_eq_left (by omega)).symm
        have hflat : (ws1 ++ [stA.buffer]).flatten = s.fragments.flatten := by
          rw [List.flatten_append, ← hbuf1]
          simp
        by_cases hH : (cg stA.buffer).decision = Decision.HARMFUL
        · have hpair : streamFilterRun cg init subseq s =
              (evs1 ++ [Event.BLOCKED (blockedMessage (cg stA.buffer).reason),
                Event.DIAGNOSTICS (mergeDiag stA.diag (cg stA.buffer))],
               ws1 ++ [stA.buffer]) := by
            simp [streamFilterRun, hrun, herr, hempty, hH]
          rw [hpair]
          refine ⟨hcommon1, hcommon2, hcommon3, ?_⟩
          refine Or.inl ⟨ws1, stA.buffer,
            mergeDiag stA.diag (cg stA.buffer), rfl, ?_, hw1, hH, [], ?_⟩
          · rw [he1]
          · rw [List.append_nil]
            exact hflat
        · have hpair : streamFilterRun cg init subseq s =
              (evs1 ++ [Event.SAFE_CHUNK stA.buffer,
                Event.DIAGNOSTICS (mergeDiag stA.diag (cg stA.buffer))],
               ws1 ++ [stA.buffer]) := by
            simp [streamFilterRun, hrun, herr, hempty, hH]
          rw [hpair]
          refine ⟨hcommon1, hcommon2, hcommon3, ?_⟩
          refine Or.inr (Or.inr ⟨mergeDiag stA.diag (cg stA.buffer), rfl,
            ?_, ?_, hflat⟩)
          · rw [he1]
            simp
          · intro u hu
            rcases List.mem_append.mp hu with h | h
            · exact hw1 u h
            · simp at h
              subst h
              exact hH

/-- The element selected by `getLast?` is a member of the list. -/
theorem mem_of_getLast?_eq (l : List (List Char)) (a : List Char)
    (h : l.getLast? = some a) : a ∈ l := by
  have hx : a ∈ l.getLast? := Option.mem_def.mpr h
  obtain ⟨hne, heq⟩ := List.mem_getLast?_eq_getLast hx
  rw [heq]
  exact List.getLast_mem hne

/-- C1: if a classified window's verdict is HARMFUL it is the last
window classified (no further window is classified); the run then ends
with BLOCKED carrying that verdict's reason followed by DIAGNOSTICS,
after emitting SAFE_CHUNK events for exactly the earlier windows — the
unconsumed buffer and remaining fragments are discarded.  When no window
is HARMFUL (SAFE, CANNOT_DETERMINE and ERROR alike) every classified
window is emitted as SAFE_CHUNK and no BLOCKED event occurs. -/
theorem C1_harmful_terminates (cg : List Char → GuardResult)
    (init subseq : Nat) (s : StreamInput)
    (hinit : 0 < init) (hsub : 0 < subseq) :
    (∀ w ∈ (streamWindows cg init subseq s).dropLast,
        (cg w).decision ≠ Decision.HARMFUL) ∧
    (∀ w, (streamWindows cg init subseq s).getLast? = some w →
      (cg w).decision = Decision.HARMFUL →
      ∃ d, stream_and_filter_response cg init subseq s =
        ((streamWindows cg init subseq s).dropLast).map Event.SAFE_CHUNK ++
          [Event.BLOCKED (blockedMessage (cg w).reason),
           Event.DIAGNOSTICS d]) ∧
    ((∀ w ∈ streamWindows cg init subseq s,
        (cg w).decision ≠ Decision.HARMFUL) →
      safeTexts (stream_and_filter_response cg init subseq s) =
        streamWindows cg init subseq s ∧
      hasBlocked (stream_and_filter_response cg init subseq s) = false) := by
  obtain ⟨_, _, _, hshape⟩ := streamFilterRun_spec cg init subseq hinit hsub s
  unfold stream_and_filter_response streamWindows
  rcases hshape with ⟨ws0, w0, d, hws, hevs, hsafe, hharm, _⟩ |
    ⟨m, d, _, hevs, hsafe, _⟩ | ⟨d, _, hevs, hsafe, _⟩
  · rw [hws, hevs]
    refine ⟨?_, ?_, ?_⟩
    · rw [List.dropLast_concat]
      exact hsafe
    · intro w hlast _
      rw [List.getLast?_concat] at hlast
      injection hlast with hlast
      subst hlast
      rw [List.dropLast_concat]
      exact ⟨d, rfl⟩
    · intro hall
      exact absurd hharm (hall w0 (by simp))
  · rw [hevs]
    refine ⟨?_, ?_, ?_⟩
    · intro w hw
      exact hsafe w (List.dropLast_subset _ hw)
    · intro w hlast hH
      exact absurd hH (hsafe w (mem_of_getLast?_eq _ w hlast))
    · intro _
      constructor
      · rw [safeTexts_map_append]
        simp [safeTexts]
      · rw [hasBlocked_map_append]
        rfl
  · rw [hevs]
    refine ⟨?_, ?_, ?_⟩
    · intro w hw
      exact hsafe w (List.dropLast_subset _ hw)
    · intro w hlast hH
      exact absurd hH (hsafe w (mem_of_getLast?_eq _ w hlast))
    · intro _
      constructor
      · rw [safeTexts_map_append]
        simp [safeTexts]
      · rw [hasBlocked_map_append]
        rfl

/-- Witness for C1: a run with an always-SAFE classifier; every window
is a SAFE_CHUNK and no BLOCKED event occurs. -/
theorem C1_harmful_terminates_witness :
    (∀ w ∈ (streamWindows (fun _ => ⟨Decision.SAFE, [], 0, [], []⟩) 2 3
        ⟨[['h', 'i', 'h', 'o']], none⟩).dropLast,
      ((fun _ => (⟨Decision.SAFE, [], 0, [], []⟩ : GuardResult)) w).decision
        ≠ Decision.HARMFUL) ∧
    safeTexts (stream_and_filter_response
        (fun _ => ⟨Decision.SAFE, [], 0, [], []⟩) 2 3
        ⟨[['h', 'i', 'h', 'o']], none⟩) =
      streamWindows (fun _ => ⟨Decision.SAFE, [], 0, [], []⟩) 2 3
        ⟨[['h', 'i', 'h', 'o']], none⟩ := by
  obtain ⟨h1, _, h3⟩ := C1_harmful_terminates
    (fun _ => ⟨Decision.SAFE, [], 0, [], []⟩) 2 3
    ⟨[['h', 'i', 'h', 'o']], none⟩ (by decide) (by decide)
  exact ⟨h1, (h3 (fun w _ => by decide)).1⟩

/-- C2: the SAFE_CHUNK payloads, in emission order, concatenate —
together with the window consumed by a BLOCKED event when the run
blocked — to a contiguous head of the upstream text: some remainder
extends them to the full concatenation, so nothing is duplicated or
skipped. -/
theorem C2_character_conservation (cg : List Char → GuardResult)
    (init subseq : Nat) (s : StreamInput)
    (hinit : 0 < init) (hsub : 0 < subseq) :
    (hasBlocked (stream_and_filter_response cg init subseq s) = true →
      ∃ bw rest, (streamWindows cg init subseq s).getLast? = some bw ∧
        (safeTexts (stream_and_filter_response cg init subseq s)).flatten ++
          bw ++ rest = s.fragments.flatten) ∧
    (hasBlocked (stream_and_filter_response cg init subseq s) = false →
      ∃ rest,
        (safeTexts (stream_and_filter_response cg init subseq s)).flatten ++
          rest = s.fragments.flatten) := by
  obtain ⟨_, _, _, hshape⟩ := streamFilterRun_spec cg init subseq hinit hsub s
  unfold stream_and_filter_response streamWindows
  rcases hshape with ⟨ws0, w0, d, hws, hevs, _, _, rest, hrest⟩ |
    ⟨m, d, _, hevs, _, rest, hrest⟩ | ⟨d, _, hevs, _, hflat⟩
  · rw [hws, hevs]
    constructor
    · intro _
      refine ⟨w0, rest, List.getLast?_concat _, ?_⟩
      rw [safeTexts_map_append]
      have hs0 : safeTexts [Event.BLOCKED (blockedMessage (cg w0).reason),
          Event.DIAGNOSTICS d] = [] := rfl
      rw [hs0, List.append_nil]
      rw [List.flatten_append] at hrest
      simpa [List.append_assoc] using hrest
    · intro hfalse
      rw [hasBlocked_map_append] at hfalse
      cases hfalse
  · rw [hevs]
    constructor
    · intro htrue
      rw [hasBlocked_map_append] at htrue
      cases htrue
    · intro _
      refine ⟨rest, ?_⟩
      rw [safeTexts_map_append]
      have hs0 : safeTexts [Event.ERROR (streamErrorMessage m),
          Event.DIAGNOSTICS d] = [] := rfl
      rw [hs0, List.append_nil]
      exact hrest
  · rw [hevs]
    constructor
    · intro htrue
      rw [hasBlocked_map_append] at htrue
      cases htrue
    · intro _
      refine ⟨[], ?_⟩
      rw [safeTexts_map_append]
      have hs0 : safeTexts [Event.DIAGNOSTICS d] = [] := rfl
      rw [hs0, List.append_nil, List.append_nil]
      exact hflat

/-- Witness for C2: an unblocked concrete run; the SAFE_CHUNK payloads
reconstruct a head of the input. -/
theorem C2_character_conservation_witness :
    ∃ rest,
      (safeTexts (stream_and_filter_response
        (fun _ => ⟨Decision.SAFE, [], 0, [], []⟩) 2 3
        ⟨[['h', 'i', 'h']], none⟩)).flatten ++ rest =
      (⟨[['h', 'i', 'h']], none⟩ : StreamInput).fragments.flatten := by
  obtain ⟨_, h2⟩ := C2_character_conservation
    (fun _ => ⟨Decision.SAFE, [], 0, [], []⟩) 2 3
    ⟨[['h', 'i', 'h']], none⟩ (by decide) (by decide)
  exact h2 (by decide)

/-- C3: every run emits exactly one terminal outcome — BLOCKED, ERROR,
or implicit success — immediately followed by exactly one DIAGNOSTICS
event and nothing after it: the whole event list is a block of
SAFE_CHUNK events, then an optional single BLOCKED or ERROR event, then
one final DIAGNOSTICS event; this holds for every fragment sequence,
including the empty one and ones whose iteration raises. -/
theorem C3_terminal_pairing (cg : List Char → GuardResult)
    (init subseq : Nat) (s : StreamInput)
    (hinit : 0 < init) (hsub : 0 < subseq) :
    ∃ (chunks : List (List Char)) (d : DiagAcc),
      stream_and_filter_response cg init subseq s =
          chunks.map Event.SAFE_CHUNK ++ [Event.DIAGNOSTICS d] ∨
      (∃ m, stream_and_filter_response cg init subseq s =
          chunks.map Event.SAFE_CHUNK ++
            [Event.BLOCKED m, Event.DIAGNOSTICS d]) ∨
      (∃ m, stream_and_filter_response cg init subseq s =
          chunks.map Event.SAFE_CHUNK ++
            [Event.ERROR m, Event.DIAGNOSTICS d]) := by
  obtain ⟨_, _, _, hshape⟩ := streamFilterRun_spec cg init subseq hinit hsub s
  unfold stream_and_filter_response
  rcases hshape with ⟨ws0, w0, d, _, hevs, _, _, _⟩ |
    ⟨m, d, _, hevs, _, _⟩ | ⟨d, _, hevs, _, _⟩
  · exact ⟨ws0, d, Or.inr (Or.inl ⟨blockedMessage (cg w0).reason, hevs⟩)⟩
  · exact ⟨(streamFilterRun cg init subseq s).2, d,
      Or.inr (Or.inr ⟨streamErrorMessage m, hevs⟩)⟩
  · exact ⟨(streamFilterRun cg init subseq s).2, d, Or.inl hevs⟩

/-- Witness for C3 on a concrete run whose upstream raises after one
fragment. -/
theorem C3_terminal_pairing_witness :
    ∃ (chunks : List (List Char)) (d : DiagAcc),
      stream_and_filter_response (fun _ => ⟨Decision.SAFE, [], 0, [], []⟩)
          2 3 ⟨[['h', 'i', 'h']], some ['o', 'h']⟩ =
          chunks.map Event.SAFE_CHUNK ++ [Event.DIAGNOSTICS d] ∨
      (∃ m, stream_and_filter_response (fun _ => ⟨Decision.SAFE, [], 0, [], []⟩)
          2 3 ⟨[['h', 'i', 'h']], some ['o', 'h']⟩ =
          chunks.map Event.SAFE_CHUNK ++
            [Event.BLOCKED m, Event.DIAGNOSTICS d]) ∨
      (∃ m, stream_and_filter_response (fun _ => ⟨Decision.SAFE, [], 0, [], []⟩)
          2 3 ⟨[['h', 'i', 'h']], some ['o', 'h']⟩ =
          chunks.map Event.SAFE_CHUNK ++
            [Event.ERROR m, Event.DIAGNOSTICS d]) :=
  C3_terminal_pairing (fun _ => ⟨Decision.SAFE, [], 0, [], []⟩) 2 3
    ⟨[['h', 'i', 'h']], some ['o', 'h']⟩ (by decide) (by decide)

/-- C6 fails as stated: with thresholds 2 and 5, an always-SAFE
classifier and the single fragment `"aaaaaa"`, the classified windows
are three windows of length 2 — the second window is subsequent and
non-final yet has length 2, not `subsequentThreshold` = 5, because
`current_buffer_size` is computed once per incoming fragment, not per
carved window. -/
theorem C6_counterexample :
    streamWindows (fun _ => ⟨Decision.SAFE, [], 0, [], []⟩) 2 5
        ⟨[['a', 'a', 'a', 'a', 'a', 'a']], none⟩ =
      [['a', 'a'], ['a', 'a'], ['a', 'a']] ∧
    ¬ (∀ w ∈ ((streamWindows (fun _ => ⟨Decision.SAFE, [], 0, [], []⟩) 2 5
        ⟨[['a', 'a', 'a', 'a', 'a', 'a']], none⟩).dropLast).tail,
      w.length = 5) := by
  exact ⟨by decide, by decide⟩

/-- C6 amended: for positive thresholds, an always-SAFE classifier and
an error-free stream of total length N, every classified window is
non-empty and at most `max init subseq` long, the first classified
window has length `min init N`, every non-final classified window has
length `init` or `subseq` (equal to the threshold in force when its
fragment arrived — not necessarily `subseq`), and the windows together
cover the whole upstream text. -/
theorem C6_window_lengths (cg : List Char → GuardResult)
    (init subseq : Nat) (s : StreamInput)
    (hinit : 0 < init) (hsub : 0 < subseq)
    (hsafe : ∀ t, (cg t).decision = Decision.SAFE) (herr : s.err = none) :
    (∀ w ∈ streamWindows cg init subseq s,
        0 < w.length ∧ w.length ≤ max init subseq) ∧
    (∀ h1, (streamWindows cg init subseq s).head? = some h1 →
        h1.length = min init s.fragments.flatten.length) ∧
    (∀ w ∈ (streamWindows cg init subseq s).dropLast,
        w.length = init ∨ w.length = subseq) ∧
    (streamWindows cg init subseq s).flatten = s.fragments.flatten := by
  obtain ⟨h1, h2, h3, hshape⟩ := streamFilterRun_spec cg init subseq hinit hsub s
  refine ⟨h2, h3, h1, ?_⟩
  unfold streamWindows
  rcases hshape with ⟨ws0, w0, d, _, _, _, hharm, _⟩ |
    ⟨m, _, herr2, _, _, _⟩ | ⟨d, _, _, _, hflat⟩
  · have := hsafe w0
    rw [this] at hharm
    cases hharm
  · rw [herr2] at herr
    cases herr
  · exact hflat

/-- Witness for the amended C6 at thresholds 2 and 5 on the fragment
`"aaaaaa"`. -/
theorem C6_window_lengths_witness :
    (∀ w ∈ streamWindows (fun _ => ⟨Decision.SAFE, [], 0, [], []⟩) 2 5
        ⟨[['a', 'a', 'a', 'a', 'a', 'a']], none⟩,
      0 < w.length ∧ w.length ≤ max 2 5) ∧
    (streamWindows (fun _ => ⟨Decision.SAFE, [], 0, [], []⟩) 2 5
        ⟨[['a', 'a', 'a', 'a', 'a', 'a']], none⟩).flatten =
      (⟨[['a', 'a', 'a', 'a', 'a', 'a']], none⟩ : StreamInput).fragments.flatten := by
  obtain ⟨h1, _, _, h4⟩ := C6_window_lengths
    (fun _ => ⟨Decision.SAFE, [], 0, [], []⟩) 2 5
    ⟨[['a', 'a', 'a', 'a', 'a', 'a']], none⟩ (by decide) (by decide)
    (fun _ => rfl) rfl
  exact ⟨h1, h4⟩

/-- C4: `check_guardrail` never lets an exception escape (the embedding
is total: every collaborator failure is consumed by a handler);
retrieval failure, generation-invocation failure and verdict-parse
failure each yield a verdict with decision `"ERROR"` and a non-empty
human-readable reason, and on every path (success and all failures) the
returned `elapsed_time` is the difference of the end and start clock
readings. -/
theorem C4_classifier_never_raises
    (retrieve : List Char → Except PyExn (List Doc))
    (invokeChain : List Char → List Char → Except PyExn (List Char))
    (parseJSON : List Char → Option ParsedObj)
    (max_tokens : Int) (tStart tEnd : ℚ) (text : List Char) :
    (check_guardrail retrieve invokeChain parseJSON max_tokens tStart tEnd
        text).elapsed_time = tEnd - tStart ∧
    (∀ e, retrieve text = Except.error e →
      isErrorVerdict (check_guardrail retrieve invokeChain parseJSON max_tokens
        tStart tEnd text)) ∧
    (∀ docs e, retrieve text = Except.ok docs →
      invokeChain (limit_docs_with_metadata docs max_tokens).combined_text text
        = Except.error e →
      isErrorVerdict (check_guardrail retrieve invokeChain parseJSON max_tokens
        tStart tEnd text)) ∧
    (∀ docs ans, retrieve text = Except.ok docs →
      invokeChain (limit_docs_with_metadata docs max_tokens).combined_text text
        = Except.ok ans → parseJSON ans = none →
      isErrorVerdict (check_guardrail retrieve invokeChain parseJSON max_tokens
        tStart tEnd text)) := by
  have hparse : isErrorVerdict (errVerdictJson tStart tEnd) :=
    ⟨rfl, parseFailReason, rfl, by decide⟩
  have hother : ∀ m, isErrorVerdict (errVerdictOther m tStart tEnd) := by
    intro m
    refine ⟨rfl, unexpectedReason m, rfl, ?_⟩
    simp [unexpectedReason]
  refine ⟨?_, ?_, ?_, ?_⟩
  · cases hr : retrieve text with
    | error e =>
      cases e with
      | jsonDecode m => simp [check_guardrail, hr, errVerdictJson]
      | other m => simp [check_guardrail, hr, errVerdictOther]
    | ok docs =>
      cases hi : invokeChain (limit_docs_with_metadata docs max_tokens).combined_text text with
      | error e =>
        cases e with
        | jsonDecode m =>
          simp [check_guardrail, hr, guardrailInvoke, hi, errVerdictJson]
        | other m =>
          simp [check_guardrail, hr, guardrailInvoke, hi, errVerdictOther]
      | ok ans =>
        cases hp : parseJSON ans with
        | none =>
          simp [check_guardrail, hr, guardrailInvoke, hi, guardrailParse, hp,
            errVerdictJson]
        | some obj =>
          simp [check_guardrail, hr, guardrailInvoke, hi, guardrailParse, hp]
  · intro e he
    cases e with
    | jsonDecode m => simpa [check_guardrail, he] using hparse
    | other m => simpa [check_guardrail, he] using hother m
  · intro docs e hdocs hi
    cases e with
    | jsonDecode m =>
      simpa [check_guardrail, hdocs, guardrailInvoke, hi] using hparse
    | other m =>
      simpa [check_guardrail, hdocs, guardrailInvoke, hi] using hother m
  · intro docs ans hdocs hi hp
    simpa [check_guardrail, hdocs, guardrailInvoke, hi, guardrailParse, hp]
      using hparse

/-- Witness for C4: a concrete run whose retrieval collaborator raises;
the call still returns an ERROR verdict with the measured elapsed time. -/
theorem C4_classifier_never_raises_witness :
    (check_guardrail (fun _ => Except.error (PyExn.other ['b']))
        (fun _ _ => Except.ok ['x']) (fun _ => none) 2000 0 1
        ['q']).elapsed_time = 1 - 0 ∧
    isErrorVerdict (check_guardrail (fun _ => Except.error (PyExn.other ['b']))
        (fun _ _ => Except.ok ['x']) (fun _ => none) 2000 0 1 ['q']) := by
  obtain ⟨ht, hretr, _, _⟩ :=
    C4_classifier_never_raises (fun _ => Except.error (PyExn.other ['b']))
      (fun _ _ => Except.ok ['x']) (fun _ => none) 2000 0 1 ['q']
  exact ⟨ht, hretr (PyExn.other ['b']) rfl⟩

/-- Witness for the amended C8 bound at a concrete document list and
budget. -/
theorem C8_combined_text_bound_witness :
    (0 : Int) ≤ 2000 ∧
    ((limit_docs_with_metadata [⟨"hello".toList, none, none⟩]
        2000).combined_text.length : Int) ≤
      3 * 2000 + 4 * ([(⟨"hello".toList, none, none⟩ : Doc)] : List Doc).length + 5 :=
  ⟨by norm_num, C8_combined_text_bound [⟨"hello".toList, none, none⟩] 2000 (by norm_num)⟩

/-- C5 fails as stated: with a retrieval collaborator that succeeds and
returns one document, a generation collaborator that succeeds, and a
parse that fails, `check_guardrail` returns `source_documents = []` and
no `source_files` key — the code empties `source_documents` on every
failure path, not only on retrieval failure. -/
theorem C5_counterexample :
    (check_guardrail (fun _ => Except.ok [⟨['d'], none, none⟩])
      (fun _ _ => Except.ok ['x']) (fun _ => none) 2000 0 1
      ['q']).source_documents = [] ∧
    (check_guardrail (fun _ => Except.ok [⟨['d'], none, none⟩])
      (fun _ _ => Except.ok ['x']) (fun _ => none) 2000 0 1
      ['q']).source_files = none ∧
    ¬ ((check_guardrail (fun _ => Except.ok [⟨['d'], none, none⟩])
      (fun _ _ => Except.ok ['x']) (fun _ => none) 2000 0 1
      ['q']).source_documents = [⟨['d'], none, none⟩]) := by
  exact ⟨rfl, rfl, by decide⟩

/-- C5 amended: every path populates `decision`, `reason`,
`elapsed_time` and `source_documents`; on the success path
decision/reason/citedFiles are taken verbatim from the parsed object and
`source_documents` equals the retrieved list; on every failure path
(including parse or generation failure after a successful retrieval)
`source_documents` is empty and the `source_files` key is absent. -/
theorem C5_verdict_fields
    (retrieve : List Char → Except PyExn (List Doc))
    (invokeChain : List Char → List Char → Except PyExn (List Char))
    (parseJSON : List Char → Option ParsedObj)
    (max_tokens : Int) (tStart tEnd : ℚ) (text : List Char) :
    (check_guardrail retrieve invokeChain parseJSON max_tokens tStart tEnd
        text).elapsed_time = tEnd - tStart ∧
    (∀ docs ans obj, retrieve text = Except.ok docs →
      invokeChain (limit_docs_with_metadata docs max_tokens).combined_text text
        = Except.ok ans →
      parseJSON ans = some obj →
      check_guardrail retrieve invokeChain parseJSON max_tokens tStart tEnd text
        = ⟨obj.decision, obj.reason, obj.source_files, tEnd - tStart, docs⟩) ∧
    ((∀ docs ans obj, ¬ (retrieve text = Except.ok docs ∧
        invokeChain (limit_docs_with_metadata docs max_tokens).combined_text text
          = Except.ok ans ∧ parseJSON ans = some obj)) →
      (check_guardrail retrieve invokeChain parseJSON max_tokens tStart tEnd
        text).decision = some sERROR ∧
      (check_guardrail retrieve invokeChain parseJSON max_tokens tStart tEnd
        text).source_files = none ∧
      (check_guardrail retrieve invokeChain parseJSON max_tokens tStart tEnd
        text).source_documents = []) := by
  obtain ⟨helapsed, _, _, _⟩ :=
    C4_classifier_never_raises retrieve invokeChain parseJSON max_tokens
      tStart tEnd text
  refine ⟨helapsed, ?_, ?_⟩
  · intro docs ans obj hdocs hi hp
    have hdocseq := limit_documents_eq docs max_tokens
    simp [check_guardrail, hdocs, guardrailInvoke, hi, guardrailParse, hp, hdocseq]
  · intro hfail
    cases hr : retrieve text with
    | error e =>
      cases e with
      | jsonDecode m =>
        simp [check_guardrail, hr, errVerdictJson]
      | other m =>
        simp [check_guardrail, hr, errVerdictOther]
    | ok docs =>
      cases hi : invokeChain (limit_docs_with_metadata docs max_tokens).combined_text text with
      | error e =>
        cases e with
        | jsonDecode m =>
          simp [check_guardrail, hr, guardrailInvoke, hi, errVerdictJson]
        | other m =>
          simp [check_guardrail, hr, guardrailInvoke, hi, errVerdictOther]
      | ok ans =>
        cases hp : parseJSON ans with
        | none =>
          simp [check_guardrail, hr, guardrailInvoke, hi, guardrailParse, hp,
            errVerdictJson]
        | some obj =>
          exact absurd ⟨hr, hi, hp⟩ (hfail docs ans obj)

/-- Witness for C5 amended: a concrete parse-failure run after a
successful retrieval; the verdict carries empty `source_documents`, no
`source_files` key, and the measured elapsed time. -/
theorem C5_verdict_fields_witness :
    (check_guardrail (fun _ => Except.ok [⟨['d'], none, none⟩])
      (fun _ _ => Except.ok ['x']) (fun _ => none) 2000 0 1
      ['q']).elapsed_time = 1 - 0 ∧
    (check_guardrail (fun _ => Except.ok [⟨['d'], none, none⟩])
      (fun _ _ => Except.ok ['x']) (fun _ => none) 2000 0 1
      ['q']).decision = some sERROR ∧
    (check_guardrail (fun _ => Except.ok [⟨['d'], none, none⟩])
      (fun _ _ => Except.ok ['x']) (fun _ => none) 2000 0 1
      ['q']).source_files = none ∧
    (check_guardrail (fun _ => Except.ok [⟨['d'], none, none⟩])
      (fun _ _ => Except.ok ['x']) (fun _ => none) 2000 0 1
      ['q']).source_documents = [] := by
  obtain ⟨ht, _, hfail⟩ :=
    C5_verdict_fields (fun _ => Except.ok [⟨['d'], none, none⟩])
      (fun _ _ => Except.ok ['x']) (fun _ => none) 2000 0 1 ['q']
  have hcontra : ∀ (docs : List Doc) (ans : List Char) (obj : ParsedObj),
      ¬ ((fun _ : List Char => Except.ok (ε := PyExn)
            [(⟨['d'], none, none⟩ : Doc)]) ['q'] = Except.ok docs ∧
        (fun _ _ : List Char => Except.ok (ε := PyExn) ['x'])
          (limit_docs_with_metadata docs 2000).combined_text ['q'] = Except.ok ans ∧
        (fun _ : List Char => (none : Option ParsedObj)) ans = some obj) := by
    intro docs ans obj h
    exact Option.noConfusion h.2.2
  obtain ⟨h1, h2, h3⟩ := hfail hcontra
  exact ⟨ht, h1, h2, h3⟩

/-- One dict assignment preserves the per-entry invariant: every entry
holds a document whose storage path is the entry's key and which is the
last processed document with that key. -/
theorem dictInsert_inv (m : List (Option (List Char) × Doc))
    (processed : List Doc) (d : Doc)
    (h1 : ∀ p ∈ m, p.2.metadata_storage_path = p.1 ∧
      (processed.filter
        (fun x => decide (x.metadata_storage_path = p.1))).getLast? = some p.2) :
    ∀ p ∈ dictInsert m d.metadata_storage_path d,
      p.2.metadata_storage_path = p.1 ∧
      ((processed ++ [d]).filter
        (fun x => decide (x.metadata_storage_path = p.1))).getLast? = some p.2 := by
  intro p' hp'
  unfold dictInsert at hp'
  by_cases hmem : d.metadata_storage_path ∈ m.map Prod.fst
  · rw [if_pos hmem] at hp'
    obtain ⟨p, hp, heq⟩ := List.mem_map.mp hp'
    by_cases hk : p.1 = d.metadata_storage_path
    · rw [if_pos hk] at heq
      subst heq
      refine ⟨rfl, ?_⟩
      rw [List.filter_append]
      have hd : List.filter
          (fun x => decide (x.metadata_storage_path = d.metadata_storage_path))
          [d] = [d] := by simp
      rw [hd, List.getLast?_concat]
    · rw [if_neg hk] at heq
      subst heq
      obtain ⟨hkey, hlast⟩ := h1 p hp
      refine ⟨hkey, ?_⟩
      rw [List.filter_append]
      have hd : List.filter (fun x => decide (x.metadata_storage_path = p.1))
          [d] = [] := by
        simp only [List.filter, decide_eq_true_eq]
        have : ¬ d.metadata_storage_path = p.1 := fun h => hk h.symm
        simp [this]
      rw [hd, List.append_nil]
      exact hlast
  · rw [if_neg hmem] at hp'
    rcases List.mem_append.mp hp' with hp | hp
    · obtain ⟨hkey, hlast⟩ := h1 p' hp
      refine ⟨hkey, ?_⟩
      have hne : ¬ d.metadata_storage_path = p'.1 := by
        intro h
        apply hmem
        rw [h]
        exact List.mem_map.mpr ⟨p', hp, rfl⟩
      rw [List.filter_append]
      have hd : List.filter (fun x => decide (x.metadata_storage_path = p'.1))
          [d] = [] := by simp [hne]
      rw [hd, List.append_nil]
      exact hlast
    · simp only [List.mem_singleton] at hp
      subst hp
      refine ⟨rfl, ?_⟩
      rw [List.filter_append]
      have hd : List.filter
          (fun x => decide (x.metadata_storage_path = d.metadata_storage_path))
          [d] = [d] := by simp
      rw [hd, List.getLast?_concat]

/-- The dict-comprehension fold preserves the per-entry invariant. -/
theorem dictFold_inv :
    ∀ (docs : List Doc) (m : List (Option (List Char) × Doc))
      (processed : List Doc),
    (∀ p ∈ m, p.2.metadata_storage_path = p.1 ∧
      (processed.filter
        (fun x => decide (x.metadata_storage_path = p.1))).getLast? = some p.2) →
    ∀ p ∈ docs.foldl (fun m d => dictInsert m d.metadata_storage_path d) m,
      p.2.metadata_storage_path = p.1 ∧
      ((processed ++ docs).filter
        (fun x => decide (x.metadata_storage_path = p.1))).getLast? = some p.2 := by
  intro docs
  induction docs with
  | nil =>
    intro m processed h
    intro p hp
    rw [List.append_nil]
    exact h p hp
  | cons d ds ih =>
    intro m processed h
    have hstep := dictInsert_inv m processed d h
    have := ih (dictInsert m d.metadata_storage_path d) (processed ++ [d]) hstep
    intro p hp
    have hres := this p (by simpa using hp)
    have hrw : processed ++ [d] ++ ds = processed ++ d :: ds := by simp
    rw [hrw] at hres
    exact hres

/-- Each deduplicated document is the LAST input document carrying its
exact storage-path value. -/
theorem unique_documents_last_wins (docs : List Doc) :
    ∀ d ∈ unique_documents docs,
      (docs.filter (fun x =>
        decide (x.metadata_storage_path = d.metadata_storage_path))).getLast?
        = some d := by
  intro d hd
  unfold unique_documents at hd
  obtain ⟨p, hp, heq⟩ := List.mem_map.mp hd
  obtain ⟨hkey, hlast⟩ := dictFold_inv docs [] [] (by simp) p hp
  subst heq
  rw [hkey]
  simpa using hlast

/-- The dict-comprehension fold never shrinks the dictionary. -/
theorem dictFold_length :
    ∀ (docs : List Doc) (m : List (Option (List Char) × Doc)),
      m.length ≤
        (docs.foldl (fun m d => dictInsert m d.metadata_storage_path d) m).length := by
  intro docs
  induction docs with
  | nil => intro m; exact le_rfl
  | cons d ds ih =>
    intro m
    have h1 : m.length ≤ (dictInsert m d.metadata_storage_path d).length := by
      unfold dictInsert
      by_cases hmem : d.metadata_storage_path ∈ m.map Prod.fst
      · rw [if_pos hmem, List.length_map]
      · rw [if_neg hmem]
        simp
    exact h1.trans (ih (dictInsert m d.metadata_storage_path d))

/-- Deduplication of a non-empty list is non-empty. -/
theorem unique_documents_ne_nil (docs : List Doc) (h : docs ≠ []) :
    unique_documents docs ≠ [] := by
  cases docs with
  | nil => exact absurd rfl h
  | cons d ds =>
    unfold unique_documents
    intro habs
    have hlen := congrArg List.length habs
    rw [List.length_map] at hlen
    have hfold := dictFold_length ds (dictInsert [] d.metadata_storage_path d)
    have hins : (dictInsert ([] : List (Option (List Char) × Doc))
        d.metadata_storage_path d).length = 1 := by
      unfold dictInsert
      simp
    rw [List.foldl_cons] at hlen
    rw [List.length_nil] at hlen
    rw [hins] at hfold
    omega

/-- C10: CitationMatcher deduplicates by the exact
`metadata_storage_path` value with the last occurrence winning: each
returned document is the last input document with its storage-path
value, two returned documents never share a storage-path value — in
particular all documents lacking the key share the missing value `none`
and collapse to the last such document, so two distinct unidentified
documents are never both returned — and the unfiltered formatter output
is exactly the image of this deduplicated list. -/
theorem C10_dedup_last_wins (docs : List Doc)
    (seqSim : List Char → List Char → ℚ)
    (b64 : List Char → Option (List Char)) (urlName : List Char → List Char) :
    (∀ d ∈ unique_documents docs,
      (docs.filter (fun x =>
        decide (x.metadata_storage_path = d.metadata_storage_path))).getLast?
        = some d) ∧
    (∀ d1 ∈ unique_documents docs, ∀ d2 ∈ unique_documents docs,
      d1.metadata_storage_path = d2.metadata_storage_path → d1 = d2) ∧
    (∀ d1 ∈ unique_documents docs, ∀ d2 ∈ unique_documents docs,
      d1.metadata_storage_path = none → d2.metadata_storage_path = none →
      d1 = d2) ∧
    format_source_documents seqSim b64 urlName docs none =
      Except.ok ((unique_documents docs).map
        (fun d => mkRecord (resolveName b64 urlName d) d)) := by
  have hinj : ∀ d1 ∈ unique_documents docs, ∀ d2 ∈ unique_documents docs,
      d1.metadata_storage_path = d2.metadata_storage_path → d1 = d2 := by
    intro d1 h1 d2 h2 hkey
    have ha := unique_documents_last_wins docs d1 h1
    have hb := unique_documents_last_wins docs d2 h2
    rw [hkey] at ha
    rw [ha] at hb
    injection hb
  refine ⟨unique_documents_last_wins docs, hinj, ?_, ?_⟩
  · intro d1 h1 d2 h2 hn1 hn2
    exact hinj d1 h1 d2 h2 (hn1.trans hn2.symm)
  · by_cases hd : docs.isEmpty
    · have hnil : docs = [] := List.isEmpty_iff.mp hd
      subst hnil
      simp [format_source_documents, unique_documents]
    · simp [format_source_documents, hd]

/-- The fallback loop succeeds and keeps the list length whenever every
document's fallback name resolution succeeds. -/
theorem fallbackRecords_ok (b64 : List Char → Option (List Char))
    (urlName : List Char → List Char) (l : List Doc)
    (h : ∀ d ∈ l, ∃ n, fallbackDisplayName b64 urlName d = Except.ok n) :
    ∃ l2, fallbackRecords b64 urlName l = Except.ok l2 ∧
      l2.length = l.length := by
  induction l with
  | nil => exact ⟨[], rfl, rfl⟩
  | cons d ds ih =>
    obtain ⟨n, hn⟩ := h d (List.mem_cons_self d ds)
    obtain ⟨l2, hl2, hlen⟩ := ih (fun x hx => h x (List.mem_cons_of_mem d hx))
    refine ⟨mkRecord (if n.isEmpty then srcUnknownName else n) d :: l2, ?_, ?_⟩
    · simp [fallbackRecords, hn, hl2]
    · simp [hlen]

/-- C9 fails as stated: with one retrieved document whose storage path
`"////"` is valid base64 for bytes that are not UTF-8 (so the decode
collaborator fails), no storage name, and the filter `["zzz"]` matching
nothing, the fail-open fallback re-decodes the path WITHOUT the main
loop's `try/except` and raises instead of returning the deduplicated
document set. -/
theorem C9_counterexample :
    format_source_documents (fun _ _ => 0)
        (fun s => if s = "////".toList then none else some s) (fun s => s)
        [⟨['h', 'i'], some "////".toList, none⟩] (some ["zzz".toList])
      = Except.error "////".toList ∧
    unique_documents [⟨['h', 'i'], some "////".toList, none⟩]
      = [⟨['h', 'i'], some "////".toList, none⟩] ∧
    isCited (fun _ _ => 0) ["zzz".toList]
        (resolveName (fun s => if s = "////".toList then none else some s)
          (fun s => s) ⟨['h', 'i'], some "////".toList, none⟩)
      = false := by
  refine ⟨rfl, by decide, by decide⟩

/-- C9 amended: with a non-empty citedFiles filter, a document is
accepted exactly when some cited string gives similarity
`max(seqSim, jaccard) ≥ 0.35` or token overlap ≥ 1 on the normalized
names; when at least one document is accepted the result is exactly the
accepted documents' records; and when zero documents are accepted the
full deduplicated set is returned (never an empty list for non-empty
input) — PROVIDED the fallback's unguarded name re-resolution raises no
exception (a document with falsy storage name and an undecodable
non-URL storage path makes it raise instead, see the counterexample). -/
theorem C9_citation_filter (seqSim : List Char → List Char → ℚ)
    (b64 : List Char → Option (List Char)) (urlName : List Char → List Char)
    (docs : List Doc) (fs : List (List Char)) (hfs : fs ≠ [])
    (hok : ∀ d ∈ unique_documents docs,
      ∃ n, fallbackDisplayName b64 urlName d = Except.ok n) :
    (∀ name, isCited seqSim fs name = true ↔
      ∃ c ∈ fs,
        mkRat 7 20 ≤ max (seqSim (normalize_filename (splitextFst name))
            (normalize_filename c))
          (token_jaccard (normalize_filename (splitextFst name))
            (normalize_filename c)) ∨
        1 ≤ tokenOverlap (normalize_filename (splitextFst name))
          (normalize_filename c)) ∧
    ((∃ d ∈ unique_documents docs,
        isCited seqSim fs (resolveName b64 urlName d) = true) →
      format_source_documents seqSim b64 urlName docs (some fs) =
        Except.ok (((unique_documents docs).filter
          (fun d => isCited seqSim fs (resolveName b64 urlName d))).map
          (fun d => mkRecord (resolveName b64 urlName d) d))) ∧
    ((∀ d ∈ unique_documents docs,
        isCited seqSim fs (resolveName b64 urlName d) = false) →
      ∃ l, format_source_documents seqSim b64 urlName docs (some fs) =
        Except.ok l ∧
        l.length = (unique_documents docs).length ∧
        (docs ≠ [] → l ≠ [])) := by
  refine ⟨?_, ?_, ?_⟩
  · intro name
    simp [isCited, List.any_eq_true]
  · rintro ⟨d0, hd0, hcit⟩
    by_cases hd : docs.isEmpty
    · have hnil : docs = [] := List.isEmpty_iff.mp hd
      subst hnil
      simp [unique_documents] at hd0
    · cases fs with
      | nil => exact absurd rfl hfs
      | cons c cs =>
        have hkept : d0 ∈ (unique_documents docs).filter
            (fun d => isCited seqSim (c :: cs) (resolveName b64 urlName d)) :=
          List.mem_filter.mpr ⟨hd0, hcit⟩
        have hne : ((unique_documents docs).filter
            (fun d => isCited seqSim (c :: cs) (resolveName b64 urlName d))).isEmpty
            = false := by
          rw [List.isEmpty_eq_false]
          exact List.ne_nil_of_mem hkept
        simp [format_source_documents, hd, hne]
  · intro hall
    by_cases hd : docs.isEmpty
    · have hnil : docs = [] := List.isEmpty_iff.mp hd
      subst hnil
      refine ⟨[], ?_, ?_, ?_⟩
      · simp [format_source_documents]
      · simp [unique_documents]
      · intro h
        exact absurd rfl h
    · cases fs with
      | nil => exact absurd rfl hfs
      | cons c cs =>
        have hkept : (unique_documents docs).filter
            (fun d => isCited seqSim (c :: cs) (resolveName b64 urlName d)) = [] := by
          rw [List.filter_eq_nil_iff]
          intro d hdm
          rw [hall d hdm]
          exact Bool.false_ne_true
        obtain ⟨l2, hl2, hlen⟩ := fallbackRecords_ok b64 urlName
          (unique_documents docs) hok
        refine ⟨l2, ?_, hlen, ?_⟩
        · simp [format_source_documents, hd, hkept, hl2]
        · intro hdocs
          have huniq := unique_documents_ne_nil docs hdocs
          intro habs
          subst habs
          apply huniq
          apply List.eq_nil_of_length_eq_zero
          simpa using hlen.symm

/-- Witness for the amended C9: one document named `"po"`, filter
`["zzz"]` matching nothing; the fail-open fallback returns the whole
(one-element) deduplicated set. -/
theorem C9_citation_filter_witness :
    ∃ l, format_source_documents (fun _ _ => 0) (fun s => some s)
        (fun s => s) [⟨['h', 'i'], none, some ['p', 'o']⟩]
        (some ["zzz".toList]) = Except.ok l ∧
      l.length = (unique_documents [⟨['h', 'i'], none, some ['p', 'o']⟩]).length ∧
      (([⟨['h', 'i'], none, some ['p', 'o']⟩] : List Doc) ≠ [] → l ≠ []) := by
  have hok : ∀ d ∈ unique_documents [⟨['h', 'i'], none, some ['p', 'o']⟩],
      ∃ n, fallbackDisplayName (fun s => some s) (fun s => s) d
        = Except.ok n := by
    intro d hd
    have hu : unique_documents [⟨['h', 'i'], none, some ['p', 'o']⟩]
        = [⟨['h', 'i'], none, some ['p', 'o']⟩] := by decide
    rw [hu, List.mem_singleton] at hd
    subst hd
    exact ⟨['p', 'o'], rfl⟩
  obtain ⟨_, _, h3⟩ := C9_citation_filter (fun _ _ => 0) (fun s => some s)
    (fun s => s) [⟨['h', 'i'], none, some ['p', 'o']⟩] ["zzz".toList]
    (by decide) hok
  exact h3 (by decide)

end Guardrail
